import Mathlib

/-!
Verification of the package-relocation core of the apply-flavor action
(src/utils/packageUtils.js together with the file primitives of
fileUtils.js).  Strings are modelled as lists of characters; the
filesystem is modelled as an explicit structure of directories and
files with injectable per-path read and write faults, mirroring the
throwing behaviour of the Node primitives.  Each JavaScript function of
the source is translated to a Lean definition of the same name.
-/

set_option maxHeartbeats 1000000

/-- Character-list model of JavaScript strings. -/
abbrev Str : Type := List Char

/-- Conversion from a Lean string literal into the character-list model. -/
def toStr (s : String) : Str := s.data

/-- The dot character separating namespace segments. -/
def dotC : Char := Char.ofNat 46

/-- The slash character separating path components. -/
def slashC : Char := Char.ofNat 47

/-- The double-quote character. -/
def dqC : Char := Char.ofNat 34

/-- The single-quote character. -/
def sqC : Char := Char.ofNat 39

/-- The equals-sign character. -/
def eqC : Char := Char.ofNat 61

/-- Whitespace as matched by the regex class backslash-s (ASCII range). -/
def isWsChar (c : Char) : Bool :=
  c = Char.ofNat 32 ∨ c = Char.ofNat 9 ∨ c = Char.ofNat 10 ∨
  c = Char.ofNat 13 ∨ c = Char.ofNat 11 ∨ c = Char.ofNat 12

/-- Line-terminator characters recognised by the multiline anchors. -/
def isBreakChar (c : Char) : Bool :=
  c = Char.ofNat 10 ∨ c = Char.ofNat 13

/-- First character of the identifier class in PACKAGE_PATTERN. -/
def isIdentStart (c : Char) : Bool := c.isAlpha

/-- Continuation characters of the identifier class in PACKAGE_PATTERN. -/
def isIdentChar (c : Char) : Bool := c.isAlphanum ∨ c = Char.ofNat 95 ∨ c = dotC

/-- Word characters for the regex word-boundary assertion. -/
def isWordChar (c : Char) : Bool := c.isAlphanum ∨ c = Char.ofNat 95

/-- Quote characters accepted by the descriptor-rewrite patterns. -/
def isQuoteChar (c : Char) : Bool := c = dqC ∨ c = sqC

/-- Source function packageToPath: replace every dot by a slash. -/
def packageToPath (packageName : Str) : Str :=
  packageName.map (fun c => if c = dotC then slashC else c)

/-- Source function pathToPackage: replace every slash by a dot. -/
def pathToPackage (packagePath : Str) : Str :=
  packagePath.map (fun c => if c = slashC then dotC else c)

/-- Split a character list at every occurrence of a separator character. -/
def splitOnC (sep : Char) : Str → List Str
  | [] => [[]]
  | c :: r =>
    match splitOnC sep r with
    | [] => [[]]
    | h :: t => if c = sep then [] :: h :: t else (c :: h) :: t

/-- Join a list of segments with a separator character. -/
def joinC (sep : Char) : List Str → Str
  | [] => []
  | [s] => s
  | s :: t :: r => s ++ sep :: joinC sep (t :: r)

/-- Splitting a joined path string on slashes, used to interpret the
result of packageToPath as a component list. -/
def splitOnSlash (s : Str) : List Str := splitOnC slashC s

theorem splitOnC_ne_nil (sep : Char) (s : Str) : splitOnC sep s ≠ [] := by
  cases s with
  | nil => simp [splitOnC]
  | cons c r =>
    simp only [splitOnC]
    rcases h : splitOnC sep r with _ | ⟨h', t⟩
    · simp
    · by_cases hc : c = sep <;> simp [hc]

theorem joinC_splitOnC (sep : Char) (s : Str) : joinC sep (splitOnC sep s) = s := by
  induction s with
  | nil => simp [splitOnC, joinC]
  | cons c r ih =>
    simp only [splitOnC]
    rcases h : splitOnC sep r with _ | ⟨h', t⟩
    · exact absurd h (splitOnC_ne_nil sep r)
    · rw [h] at ih
      by_cases hc : c = sep
      · simp only [if_pos hc, joinC]
        simp [ih, hc]
      · simp only [if_neg hc]
        cases t with
        | nil => simp [joinC] at ih ⊢; exact ih
        | cons t0 ts => simp [joinC] at ih ⊢; exact ih

/-- Match a literal character sequence at the head of the input,
returning the remainder on success. -/
def stripLit : Str → Str → Option Str
  | [], s => some s
  | _ :: _, [] => none
  | c :: w, d :: s => if c = d then stripLit w s else none

/-- Match one or more whitespace characters greedily, returning the
remainder.  Models the regex one-or-more whitespace quantifier in the
patterns of the source, all of which are followed by a literal that
begins with a non-whitespace character, so the greedy run never
backtracks. -/
def stripWs1 : Str → Option Str
  | [] => none
  | c :: r => if isWsChar c then some (r.dropWhile isWsChar) else none

/-- Split a whitespace run at its last line-terminator character:
returns the part before the last terminator and the suffix starting at
that terminator, or none when the run contains no terminator.  Used to
model a greedy trailing whitespace quantifier followed by a multiline
end-of-line anchor. -/
def splitAtLastBreak : Str → Option (Str × Str)
  | [] => none
  | c :: r =>
    match splitAtLastBreak r with
    | some (a, b) => some (c :: a, b)
    | none => if isBreakChar c then some ([], c :: r) else none

theorem stripLit_sound : ∀ (w s r : Str), stripLit w s = some r → s = w ++ r := by
  intro w
  induction w with
  | nil =>
    intro s r h
    simp only [stripLit, Option.some.injEq] at h
    simp [h]
  | cons c w ih =>
    intro s r h
    cases s with
    | nil => simp [stripLit] at h
    | cons d t =>
      simp only [stripLit] at h
      by_cases hc : c = d
      · rw [if_pos hc] at h
        have := ih t r h
        simp [hc, this]
      · rw [if_neg hc] at h; exact absurd h (by simp)

theorem stripLit_length {w s r : Str} (h : stripLit w s = some r) :
    s.length = w.length + r.length := by
  have := stripLit_sound w s r h
  simp [this]

theorem stripWs1_length {s r : Str} (h : stripWs1 s = some r) : r.length < s.length := by
  cases s with
  | nil => simp [stripWs1] at h
  | cons c t =>
    simp only [stripWs1] at h
    by_cases hc : isWsChar c = true
    · rw [if_pos hc] at h
      have := (List.dropWhile_suffix (l := t) isWsChar).sublist.length_le
      cases h
      simp only [List.length_cons]
      omega
    · rw [if_neg hc] at h; exact absurd h (by simp)

/-- Match of PACKAGE_PATTERN at one position: the keyword, one or more
whitespace characters, then a captured dotted identifier. -/
def pkgMatchAt (s : Str) : Option Str :=
  match stripLit (toStr "package") s with
  | none => none
  | some r1 =>
    match r1 with
    | [] => none
    | c :: t =>
      if isWsChar c then
        match t.dropWhile isWsChar with
        | [] => none
        | d :: u => if isIdentStart d then some (d :: u.takeWhile isIdentChar) else none
      else none

/-- First match of the multiline PACKAGE_PATTERN over a whole content
string; the boolean records whether the current position is a line
start.  Returns the captured identifier of the first match. -/
def extractFirstPackage : Str → Bool → Option Str
  | [], _ => none
  | c :: r, atLS =>
    if atLS then
      match pkgMatchAt (c :: r) with
      | some cap => some cap
      | none => extractFirstPackage r (isBreakChar c)
    else extractFirstPackage r (isBreakChar c)

/-- Match, at one line-start position, the full-declaration pattern of
updatePackageDeclarationWithSubdir: keyword, whitespace, identifier,
trailing whitespace, then the multiline end anchor.  Returns the
matched text and the remainder, following the greedy backtracking of
the trailing whitespace quantifier against the end anchor. -/
def fullDeclMatchAt (s : Str) : Option (Str × Str) :=
  match stripLit (toStr "package") s with
  | none => none
  | some r1 =>
    match r1 with
    | [] => none
    | c :: t =>
      if isWsChar c then
        let ws : Str := c :: t.takeWhile isWsChar
        match t.dropWhile isWsChar with
        | [] => none
        | d :: u =>
          if isIdentStart d then
            let cap : Str := d :: u.takeWhile isIdentChar
            let r3 : Str := u.dropWhile isIdentChar
            let w : Str := r3.takeWhile isWsChar
            let r4 : Str := r3.dropWhile isWsChar
            if r4 = [] then some (toStr "package" ++ ws ++ cap ++ w, [])
            else
              match splitAtLastBreak w with
              | some (a, b) => some (toStr "package" ++ ws ++ cap ++ a, b ++ r4)
              | none => none
          else none
      else none

/-- Replace the first match of the full-declaration pattern by a fresh
declaration line, scanning line starts of the content. -/
def replaceFullDeclGo (newDecl : Str) : Str → Bool → Str
  | [], _ => []
  | c :: r, atLS =>
    if atLS then
      match fullDeclMatchAt (c :: r) with
      | some (_, rest) => newDecl ++ rest
      | none => c :: replaceFullDeclGo newDecl r (isBreakChar c)
    else c :: replaceFullDeclGo newDecl r (isBreakChar c)

/-- Source function updatePackageDeclarationWithSubdir: compute the
full package including the subdirectory suffix and replace the first
whole declaration line. -/
def updatePackageDeclarationWithSubdir (content newPackage relativeDirPath : Str) : Str :=
  let fullPackage :=
    if relativeDirPath ≠ [] ∧ relativeDirPath ≠ [dotC] then
      newPackage ++ dotC :: pathToPackage relativeDirPath
    else newPackage
  replaceFullDeclGo (toStr "package " ++ fullPackage) content true

/-- Match, at one line-start position, the declaration prefix pattern
of updatePackageReferencesInContent: keyword, whitespace, then the old
package literally (metacharacters escaped in the source by
escapeRegex), with no end anchor. -/
def declPrefixMatchAt (old : Str) (s : Str) : Option Str :=
  match stripLit (toStr "package") s with
  | none => none
  | some r1 =>
    match stripWs1 r1 with
    | none => none
    | some r2 => stripLit old r2

/-- Replace the first line-anchored declaration-prefix match by the new
declaration prefix, keeping the remainder of the line. -/
def replacePkgDeclGo (old newP : Str) : Str → Bool → Str
  | [], _ => []
  | c :: r, atLS =>
    if atLS then
      match declPrefixMatchAt old (c :: r) with
      | some rest => toStr "package " ++ newP ++ rest
      | none => c :: replacePkgDeclGo old newP r (isBreakChar c)
    else c :: replacePkgDeclGo old newP r (isBreakChar c)

/-- Match of the global import pattern: the import keyword, whitespace,
then the old package literally. -/
def impMatchAt (old : Str) (s : Str) : Option Str :=
  match stripLit (toStr "import") s with
  | none => none
  | some r1 =>
    match stripWs1 r1 with
    | none => none
    | some r2 => stripLit old r2

theorem impMatchAt_length {old s rest : Str} (h : impMatchAt old s = some rest) :
    rest.length < s.length := by
  simp only [impMatchAt] at h
  rcases h1 : stripLit (toStr "import") s with _ | r1 <;> rw [h1] at h <;> dsimp only at h
  · exact absurd h (by simp)
  · rcases h2 : stripWs1 r1 with _ | r2 <;> rw [h2] at h <;> dsimp only at h
    · exact absurd h (by simp)
    · have l1 := stripLit_length h1
      have l2 := stripWs1_length h2
      have l3 := stripLit_length h
      simp [toStr] at l1
      omega

/-- Global replacement of the import pattern, left to right and
non-overlapping as performed by a global regex replace.  The fuel
argument makes the recursion structural; every match consumes at least
one character, so fuel equal to the length of the scanned string never
runs out. -/
def replaceImportsGo (old newP : Str) : Nat → Str → Str
  | 0, s => s
  | _, [] => []
  | fuel + 1, c :: r =>
    match impMatchAt old (c :: r) with
    | some rest => toStr "import " ++ newP ++ replaceImportsGo old newP fuel rest
    | none => c :: replaceImportsGo old newP fuel r

/-- Match of the global qualified-reference pattern body: the old
package literally, immediately followed by a dot. -/
def qualMatchAt (old : Str) (s : Str) : Option Str :=
  match stripLit old s with
  | none => none
  | some r1 => stripLit [dotC] r1

theorem qualMatchAt_length {old s rest : Str} (h : qualMatchAt old s = some rest) :
    rest.length < s.length := by
  simp only [qualMatchAt] at h
  rcases h1 : stripLit old s with _ | r1 <;> rw [h1] at h <;> dsimp only at h
  · exact absurd h (by simp)
  · have l1 := stripLit_length h1
    have l2 := stripLit_length h
    simp at l2
    omega

/-- Word-boundary assertion before the qualified-reference match: the
previous character and the first matched character must differ in word
membership; at the start of the content the first matched character
must be a word character. -/
def wordBoundaryOk (prev : Option Char) (old : Str) : Bool :=
  let first := match old with | [] => dotC | c :: _ => c
  match prev with
  | none => isWordChar first
  | some p => ((isWordChar p) != (isWordChar first))

/-- Global replacement of the word-bounded qualified-reference pattern,
threading the previous character for the boundary assertion.  The fuel
argument makes the recursion structural; every match consumes at least
the dot, so fuel equal to the length of the scanned string never runs
out. -/
def replaceQualifiedGo (old newP : Str) : Nat → Str → Option Char → Str
  | 0, s, _ => s
  | _, [], _ => []
  | fuel + 1, c :: r, prev =>
    if wordBoundaryOk prev old then
      match qualMatchAt old (c :: r) with
      | some rest => newP ++ dotC :: replaceQualifiedGo old newP fuel rest (some dotC)
      | none => c :: replaceQualifiedGo old newP fuel r (some c)
    else c :: replaceQualifiedGo old newP fuel r (some c)

/-- Source function updatePackageReferencesInContent: the three
sequential textual replacements of the declaration prefix, the import
occurrences and the word-bounded qualified references. -/
def updatePackageReferencesInContent (content oldPackage newPackage : Str) : Str :=
  let c1 := replacePkgDeclGo oldPackage newPackage content true
  let c2 := replaceImportsGo oldPackage newPackage c1.length c1
  replaceQualifiedGo oldPackage newPackage c2.length c2 none

/-- Match of the applicationId descriptor pattern at one position: the
attribute key, optional whitespace, an optional equals sign, optional
whitespace, then the old value between quote characters. -/
def appIdMatchAt (old : Str) (s : Str) : Option Str :=
  match stripLit (toStr "applicationId") s with
  | none => none
  | some r1 =>
    let r2 := r1.dropWhile isWsChar
    let r3 := match r2 with
              | c :: t => if c = eqC then t else r2
              | [] => r2
    let r4 := r3.dropWhile isWsChar
    match r4 with
    | [] => none
    | c :: t =>
      if isQuoteChar c then
        match stripLit old t with
        | none => none
        | some r5 =>
          match r5 with
          | [] => none
          | d :: u => if isQuoteChar d then some u else none
      else none

theorem dropWhile_length_le (p : Char → Bool) (t : Str) :
    (t.dropWhile p).length ≤ t.length :=
  (List.dropWhile_suffix (l := t) p).sublist.length_le

theorem appIdMatchAt_length {old s rest : Str} (h : appIdMatchAt old s = some rest) :
    rest.length < s.length := by
  simp only [appIdMatchAt] at h
  rcases h1 : stripLit (toStr "applicationId") s with _ | r1 <;> rw [h1] at h <;> dsimp only at h
  · exact absurd h (by simp)
  · have l1 := stripLit_length h1
    have l2 := dropWhile_length_le isWsChar r1
    set r2 := r1.dropWhile isWsChar with hr2
    have l3 : (match r2 with
              | c :: t => if c = eqC then t else r2
              | [] => r2).length ≤ r2.length := by
      rcases r2 with _ | ⟨c, t⟩
      · simp
      · dsimp only
        by_cases hc : c = eqC <;> simp [hc]
    set r3 := (match r2 with
              | c :: t => if c = eqC then t else r2
              | [] => r2) with hr3
    have l4 := dropWhile_length_le isWsChar r3
    set r4 := r3.dropWhile isWsChar with hr4
    rcases hr : r4 with _ | ⟨c, t⟩ <;> rw [hr] at h <;> dsimp only at h
    · exact absurd h (by simp)
    · by_cases hq : isQuoteChar c = true
      · rw [if_pos hq] at h
        rcases h5 : stripLit old t with _ | r5 <;> rw [h5] at h <;> dsimp only at h
        · exact absurd h (by simp)
        · have l5 := stripLit_length h5
          rcases hr5 : r5 with _ | ⟨d, u⟩ <;> rw [hr5] at h <;> dsimp only at h
          · exact absurd h (by simp)
          · by_cases hq2 : isQuoteChar d = true
            · rw [if_pos hq2] at h
              have hrest : rest = u := by simpa using h.symm
              subst hrest
              simp [toStr] at l1
              have hl4 : (c :: t).length ≤ r3.length := by
                rw [← hr]
                exact l4
              simp at hl4
              subst hr5
              simp at l5
              omega
            · rw [if_neg hq2] at h; exact absurd h (by simp)
      · rw [if_neg hq] at h; exact absurd h (by simp)

/-- Global replacement of the applicationId descriptor pattern; the
replacement normalises to the double-quoted assignment form used in the
source template string.  The fuel argument makes the recursion
structural; every match consumes at least the attribute key, so fuel
equal to the length of the scanned string never runs out. -/
def replaceAppIdGo (old newP : Str) : Nat → Str → Str
  | 0, s => s
  | _, [] => []
  | fuel + 1, c :: r =>
    match appIdMatchAt old (c :: r) with
    | some rest =>
        toStr "applicationId " ++ dqC :: (newP ++ dqC :: replaceAppIdGo old newP fuel rest)
    | none => c :: replaceAppIdGo old newP fuel r

/-- Content transformation of updateBuildFiles for one build file. -/
def updateBuildFilesContent (content oldPackage newPackage : Str) : Str :=
  replaceAppIdGo oldPackage newPackage content.length content

/-- Match of the manifest package-attribute pattern at one position:
the attribute key, optional whitespace, a required equals sign,
optional whitespace, then the old value between quote characters. -/
def pkgAttrMatchAt (old : Str) (s : Str) : Option Str :=
  match stripLit (toStr "package") s with
  | none => none
  | some r1 =>
    let r2 := r1.dropWhile isWsChar
    match r2 with
    | [] => none
    | c :: t =>
      if c = eqC then
        let r3 := t.dropWhile isWsChar
        match r3 with
        | [] => none
        | d :: u =>
          if isQuoteChar d then
            match stripLit old u with
            | none => none
            | some r5 =>
              match r5 with
              | [] => none
              | e :: v => if isQuoteChar e then some v else none
          else none
      else none

theorem pkgAttrMatchAt_length {old s rest : Str} (h : pkgAttrMatchAt old s = some rest) :
    rest.length < s.length := by
  simp only [pkgAttrMatchAt] at h
  rcases h1 : stripLit (toStr "package") s with _ | r1 <;> rw [h1] at h <;> dsimp only at h
  · exact absurd h (by simp)
  · have l1 := stripLit_length h1
    have l2 := dropWhile_length_le isWsChar r1
    rcases hr : r1.dropWhile isWsChar with _ | ⟨c, t⟩ <;> rw [hr] at h <;> dsimp only at h
    · exact absurd h (by simp)
    · by_cases hc : c = eqC
      · rw [if_pos hc] at h
        have l3 := dropWhile_length_le isWsChar t
        rcases hr3 : t.dropWhile isWsChar with _ | ⟨d, u⟩ <;> rw [hr3] at h <;> dsimp only at h
        · exact absurd h (by simp)
        · by_cases hq : isQuoteChar d = true
          · rw [if_pos hq] at h
            rcases h5 : stripLit old u with _ | r5 <;> rw [h5] at h <;> dsimp only at h
            · exact absurd h (by simp)
            · have l5 := stripLit_length h5
              rcases hr5 : r5 with _ | ⟨e, v⟩ <;> rw [hr5] at h <;> dsimp only at h
              · exact absurd h (by simp)
              · by_cases hq2 : isQuoteChar e = true
                · rw [if_pos hq2] at h
                  have : rest = v := by simpa using h.symm
                  subst this
                  rw [hr] at l2
                  rw [hr3] at l3
                  subst hr5
                  simp [toStr] at l1
                  simp at l2 l3 l5
                  omega
                · rw [if_neg hq2] at h; exact absurd h (by simp)
          · rw [if_neg hq] at h; exact absurd h (by simp)
      · rw [if_neg hc] at h; exact absurd h (by simp)

/-- Global replacement of the manifest package attribute; the
replacement normalises to the compact double-quoted form used in the
source template string.  The fuel argument makes the recursion
structural; every match consumes at least the attribute key, so fuel
equal to the length of the scanned string never runs out. -/
def replacePkgAttrGo (old newP : Str) : Nat → Str → Str
  | 0, s => s
  | _, [] => []
  | fuel + 1, c :: r =>
    match pkgAttrMatchAt old (c :: r) with
    | some rest =>
        toStr "package=" ++ dqC :: (newP ++ dqC :: replacePkgAttrGo old newP fuel rest)
    | none => c :: replacePkgAttrGo old newP fuel r

/-- Content transformation of updateManifest. -/
def updateManifestContent (content oldPackage newPackage : Str) : Str :=
  replacePkgAttrGo oldPackage newPackage content.length content

/-- A filesystem path as a list of name components. -/
abbrev FsPath : Type := List Str

/-- Explicit filesystem state: existing directories, files with their
contents, and the sets of paths whose reads or writes fail, modelling
the throwing file primitives. -/
structure FS where
  dirs : List FsPath
  files : List (FsPath × Str)
  readFail : List FsPath
  writeFail : List FsPath
deriving DecidableEq

/-- Association lookup of a file by path. -/
def getF : List (FsPath × Str) → FsPath → Option Str
  | [], _ => none
  | e :: r, p => if e.1 = p then some e.2 else getF r p

/-- Remove every binding of one path from an association list. -/
def removeF : List (FsPath × Str) → FsPath → List (FsPath × Str)
  | [], _ => []
  | e :: r, p => if e.1 = p then removeF r p else e :: removeF r p

/-- Write or overwrite a file binding, keeping one binding per path. -/
def setF (l : List (FsPath × Str)) (p : FsPath) (c : Str) : List (FsPath × Str) :=
  removeF l p ++ [(p, c)]

/-- Remove a file binding. -/
def delF (l : List (FsPath × Str)) (p : FsPath) : List (FsPath × Str) :=
  removeF l p

/-- Node existsSync: true when the path is a directory or a file. -/
def existsSync (fs : FS) (p : FsPath) : Bool :=
  if p ∈ fs.dirs then true else (getF fs.files p).isSome

/-- Relative paths of all entries, files and directories alike, lying
strictly below a root, in the deterministic order of the stored lists;
models the recursive readdirSync listing. -/
def entriesUnder (fs : FS) (root : FsPath) : List FsPath :=
  (fs.files.filterMap fun e =>
    if root <+: e.1 ∧ e.1 ≠ root then some (e.1.drop root.length) else none) ++
  (fs.dirs.filterMap fun d =>
    if root <+: d ∧ d ≠ root then some (d.drop root.length) else none)

/-- Result of the stat primitive. -/
inductive StatR | file | dir | err
deriving DecidableEq

/-- Node statSync restricted to the file and directory tests used by
the source; a missing path throws. -/
def statSync (fs : FS) (p : FsPath) : StatR :=
  if (getF fs.files p).isSome then .file
  else if p ∈ fs.dirs then .dir
  else .err

/-- Source function ensureDirectoryExists of fileUtils: create the
directory and its missing ancestors unless the path already exists. -/
def ensureDirectoryExists (fs : FS) (p : FsPath) : FS :=
  if existsSync fs p then fs
  else
    { fs with dirs :=
        (((List.range p.length).map fun k => p.take (k + 1)).filter
          fun q => ¬ q ∈ fs.dirs) ++ fs.dirs }

/-- Source function readFileContent of fileUtils: read a file or throw;
the thrown case is the none result. -/
def readFileContent (fs : FS) (p : FsPath) : Option Str :=
  if p ∈ fs.readFail then none else getF fs.files p

/-- Source function writeFileContent of fileUtils: ensure the parent
directory, then write or throw; the boolean reports success. -/
def writeFileContent (fs : FS) (p : FsPath) (content : Str) : FS × Bool :=
  let fs1 := ensureDirectoryExists fs p.dropLast
  if p ∈ fs1.writeFail then (fs1, false)
  else ({ fs1 with files := setF fs1.files p content }, true)

/-- Node copyFileSync: byte-for-byte copy, throwing on a failed read of
the source or a failed write of the destination. -/
def copyFileSync (fs : FS) (src dst : FsPath) : FS × Bool :=
  if src ∈ fs.readFail then (fs, false)
  else
    match getF fs.files src with
    | none => (fs, false)
    | some c =>
      if dst ∈ fs.writeFail then (fs, false)
      else ({ fs with files := setF fs.files dst c }, true)

/-- Node unlinkSync: delete a file, throwing when it is missing. -/
def unlinkSync (fs : FS) (p : FsPath) : FS × Bool :=
  match getF fs.files p with
  | none => (fs, false)
  | some _ => ({ fs with files := delF fs.files p }, true)

/-- The constant JAVA_SOURCE_DIR of the source. -/
def JAVA_SOURCE_DIR : FsPath := [toStr "src", toStr "main", toStr "java"]

/-- The constant KOTLIN_SOURCE_DIR of the source. -/
def KOTLIN_SOURCE_DIR : FsPath := [toStr "src", toStr "main", toStr "kotlin"]

/-- Recognition of source files by the kt or java suffix, as tested on
the relative path string by endsWith in the source; on a joined
relative path the test is equivalent to testing the last component. -/
def isSourceEntry (relPath : FsPath) : Bool :=
  match relPath.getLast? with
  | some name => decide ((toStr ".kt") <:+ name) ∨ decide ((toStr ".java") <:+ name)
  | none => false

/-- Source function extractPackageFromFile: read the file and apply
PACKAGE_PATTERN, with every failure caught and mapped to none. -/
def extractPackageFromFile (fs : FS) (filePath : FsPath) : Option Str :=
  match readFileContent fs filePath with
  | none => none
  | some content => extractFirstPackage content true

/-- Loop body of findPackageInDirectory over the recursive listing. -/
def findPkgLoop (fs : FS) (sourcePath : FsPath) : List FsPath → Option Str
  | [] => none
  | f :: rest =>
    if isSourceEntry f then
      match extractPackageFromFile fs (sourcePath ++ f) with
      | some packageName => some packageName
      | none => findPkgLoop fs sourcePath rest
    else findPkgLoop fs sourcePath rest

/-- Source function findPackageInDirectory: list the directory
recursively, catching a failed listing, and return the first package
declared by a recognised source file. -/
def findPackageInDirectory (fs : FS) (sourcePath : FsPath) : Option Str :=
  if sourcePath ∈ fs.dirs then findPkgLoop fs sourcePath (entriesUnder fs sourcePath)
  else none

/-- Source function detectExistingPackage: first hit over the java and
kotlin main source directories. -/
def detectExistingPackage (fs : FS) (appModule : FsPath) : Option Str :=
  match findPackageInDirectory fs (appModule ++ JAVA_SOURCE_DIR) with
  | some packageName => some packageName
  | none => findPackageInDirectory fs (appModule ++ KOTLIN_SOURCE_DIR)

/-- Source function hasSourceFiles: recursive listing with any entry
named like a source file; a failed listing yields false. -/
def hasSourceFiles (fs : FS) (directory : FsPath) : Bool :=
  if directory ∈ fs.dirs then (entriesUnder fs directory).any isSourceEntry
  else false

/-- Descending loop of findOldPackageRoot over shrinking namespace
slices. -/
def findRootLoop (fs : FS) (sourcePath : FsPath) (parts : List Str) : Nat → Option FsPath
  | 0 => none
  | i + 1 =>
    let slicePackage := joinC dotC (parts.take (i + 1))
    let candidatePath := sourcePath ++ splitOnSlash (packageToPath slicePackage)
    if existsSync fs candidatePath then
      if hasSourceFiles fs candidatePath then some candidatePath
      else findRootLoop fs sourcePath parts i
    else findRootLoop fs sourcePath parts i

/-- Source function findOldPackageRoot: the exact namespace path when
it exists, otherwise the deepest existing namespace slice containing
source files. -/
def findOldPackageRoot (fs : FS) (sourcePath : FsPath) (oldPackage : Str) : Option FsPath :=
  if oldPackage = [] then none
  else
    let oldPackageRoot := sourcePath ++ splitOnSlash (packageToPath oldPackage)
    if existsSync fs oldPackageRoot then some oldPackageRoot
    else
      let packageParts := splitOnC dotC oldPackage
      findRootLoop fs sourcePath packageParts packageParts.length

/-- The dirname of a relative path as computed by path.dirname on the
joined string: the directory part, or a single dot at top level. -/
def relDirname (f : FsPath) : Str :=
  if f.dropLast = [] then [dotC] else joinC slashC f.dropLast

/-- One iteration of the file loop of movePackageStructure.  Returns
the filesystem, whether the moved counter was incremented, and whether
an exception was thrown (aborting the loop). -/
def processEntry (fs : FS) (oldPackageRoot newPackageRoot : FsPath) (newPackage : Str)
    (f : FsPath) : FS × Bool × Bool :=
  let oldFilePath := oldPackageRoot ++ f
  match statSync fs oldFilePath with
  | .err => (fs, false, true)
  | .dir => (fs, false, false)
  | .file =>
    let newFilePath := newPackageRoot ++ f
    let fs1 := ensureDirectoryExists fs newFilePath.dropLast
    if isSourceEntry f then
      match readFileContent fs1 oldFilePath with
      | none => (fs1, false, true)
      | some content =>
        let updatedContent := updatePackageDeclarationWithSubdir content newPackage (relDirname f)
        let w := writeFileContent fs1 newFilePath updatedContent
        if w.2 then
          let u := unlinkSync w.1 oldFilePath
          (u.1, true, !u.2)
        else (w.1, false, true)
    else
      let cpy := copyFileSync fs1 oldFilePath newFilePath
      if cpy.2 then
        let u := unlinkSync cpy.1 oldFilePath
        (u.1, true, !u.2)
      else (cpy.1, false, true)

/-- The file loop of movePackageStructure over the snapshot listing;
an exception in one iteration aborts the remaining iterations. -/
def moveLoop (oldPackageRoot newPackageRoot : FsPath) (newPackage : Str) :
    FS → List FsPath → Nat → FS × Nat × Bool
  | fs, [], movedItems => (fs, movedItems, true)
  | fs, f :: rest, movedItems =>
    let r := processEntry fs oldPackageRoot newPackageRoot newPackage f
    if r.2.2 then (r.1, movedItems, false)
    else moveLoop oldPackageRoot newPackageRoot newPackage r.1 rest
      (if r.2.1 then movedItems + 1 else movedItems)

/-- Source function cleanupOldPackageStructure: delete the directory
when it has no entries, then repeat the check on the parent, stopping
when a directory is non-empty, missing, or the path has no parent.  A
listing failure on a non-directory is caught and leaves the filesystem
unchanged. -/
def cleanupGo : Nat → FS → FsPath → FS
  | fuel, fs, oldPackageRoot =>
    if oldPackageRoot ∈ fs.dirs then
      if entriesUnder fs oldPackageRoot = [] then
        let fs1 : FS := { fs with dirs := fs.dirs.filter (fun q => ¬ q = oldPackageRoot) }
        if oldPackageRoot.dropLast ≠ oldPackageRoot then
          match fuel with
          | fuel' + 1 => cleanupGo fuel' fs1 oldPackageRoot.dropLast
          | 0 => fs1
        else fs1
      else fs
    else fs

/-- Wrapper of cleanupGo at the fuel bound given by the path depth; the
ascent shortens the path by one component per step, so this fuel never
runs out. -/
def cleanupOldPackageStructure (fs : FS) (oldPackageRoot : FsPath) : FS :=
  cleanupGo oldPackageRoot.length fs oldPackageRoot

/-- Source function movePackageStructure: ensure the new root, list the
old root, process every file, and clean up the vacated directories when
anything was moved.  The boolean is false when an exception escaped
(re-thrown by the source after logging). -/
def movePackageStructure (fs : FS) (oldPackageRoot newPackageRoot : FsPath)
    (newPackage : Str) : FS × Nat × Bool :=
  let fs1 := ensureDirectoryExists fs newPackageRoot
  if oldPackageRoot ∈ fs1.dirs then
    let r := moveLoop oldPackageRoot newPackageRoot newPackage fs1
      (entriesUnder fs1 oldPackageRoot) 0
    match r with
    | (fs2, movedItems, true) =>
      if movedItems > 0 then (cleanupOldPackageStructure fs2 oldPackageRoot, movedItems, true)
      else (fs2, movedItems, true)
    | (fs2, movedItems, false) => (fs2, movedItems, false)
  else (fs1, 0, false)

/-- Source function restructurePackageDirectory: locate the old root
and move it, catching any exception as one warning; without a root,
create the new package directory. -/
def restructurePackageDirectory (fs : FS) (sourcePath : FsPath)
    (oldPackage newPackage : Str) : FS × Nat :=
  match findOldPackageRoot fs sourcePath oldPackage with
  | some oldPackageRoot =>
    if existsSync fs oldPackageRoot then
      let newPackageRoot := sourcePath ++ splitOnSlash (packageToPath newPackage)
      let r := movePackageStructure fs oldPackageRoot newPackageRoot newPackage
      if r.2.2 then (r.1, 0) else (r.1, 1)
    else (ensureDirectoryExists fs (sourcePath ++ splitOnSlash (packageToPath newPackage)), 0)
  | none => (ensureDirectoryExists fs (sourcePath ++ splitOnSlash (packageToPath newPackage)), 0)

/-- Source function updateReferencesInFile: rewrite one file, writing
only when the content changed; a failed read or write is one warning. -/
def updateReferencesInFile (fs : FS) (filePath : FsPath)
    (oldPackage newPackage : Str) : FS × Nat :=
  match readFileContent fs filePath with
  | none => (fs, 1)
  | some content =>
    let updatedContent := updatePackageReferencesInContent content oldPackage newPackage
    if content = updatedContent then (fs, 0)
    else
      let w := writeFileContent fs filePath updatedContent
      if w.2 then (w.1, 0) else (w.1, 1)

/-- Loop of updateReferencesInDirectory; a stat failure throws to the
directory-level catch, aborting the remaining entries silently. -/
def updateRefsLoop (directory : FsPath) (oldPackage newPackage : Str) :
    FS → List FsPath → FS × Nat
  | fs, [] => (fs, 0)
  | fs, f :: rest =>
    let filePath := directory ++ f
    match statSync fs filePath with
    | .err => (fs, 0)
    | .dir => updateRefsLoop directory oldPackage newPackage fs rest
    | .file =>
      if isSourceEntry f then
        let r := updateReferencesInFile fs filePath oldPackage newPackage
        let r2 := updateRefsLoop directory oldPackage newPackage r.1 rest
        (r2.1, r.2 + r2.2)
      else updateRefsLoop directory oldPackage newPackage fs rest

/-- Source function updateReferencesInDirectory: recursive listing with
a silent catch for a missing directory. -/
def updateReferencesInDirectory (fs : FS) (directory : FsPath)
    (oldPackage newPackage : Str) : FS × Nat :=
  if directory ∈ fs.dirs then
    updateRefsLoop directory oldPackage newPackage fs (entriesUnder fs directory)
  else (fs, 0)

/-- Source function updateAllPackageReferencesInProject over the two
main source directories. -/
def updateAllPackageReferencesInProject (fs : FS) (appModule : FsPath)
    (oldPackage newPackage : Str) : FS × Nat :=
  let r1 := updateReferencesInDirectory fs (appModule ++ JAVA_SOURCE_DIR) oldPackage newPackage
  let r2 := updateReferencesInDirectory r1.1 (appModule ++ KOTLIN_SOURCE_DIR) oldPackage newPackage
  (r2.1, r1.2 + r2.2)

/-- Source function updateBuildFiles over the two gradle build files. -/
def updateBuildFiles (fs : FS) (appModule : FsPath) (oldPackage newPackage : Str) : FS × Nat :=
  List.foldl
    (fun acc name =>
      let buildPath := appModule ++ [name]
      if existsSync acc.1 buildPath then
        match readFileContent acc.1 buildPath with
        | none => (acc.1, acc.2 + 1)
        | some content =>
          let updatedContent := updateBuildFilesContent content oldPackage newPackage
          if content = updatedContent then acc
          else
            let w := writeFileContent acc.1 buildPath updatedContent
            if w.2 then (w.1, acc.2) else (w.1, acc.2 + 1)
      else acc)
    (fs, 0) [toStr "build.gradle", toStr "build.gradle.kts"]

/-- Source function updateManifest on the manifest of the main source
set. -/
def updateManifest (fs : FS) (appModule : FsPath) (oldPackage newPackage : Str) : FS × Nat :=
  let manifestPath := appModule ++ [toStr "src", toStr "main", toStr "AndroidManifest.xml"]
  if existsSync fs manifestPath then
    match readFileContent fs manifestPath with
    | none => (fs, 1)
    | some content =>
      let updatedContent := updateManifestContent content oldPackage newPackage
      if content = updatedContent then (fs, 0)
      else
        let w := writeFileContent fs manifestPath updatedContent
        if w.2 then (w.1, 0) else (w.1, 1)
  else (fs, 0)

/-- The list of source directories restructured by
updatePackageReferences. -/
def sourceDirsList : List FsPath :=
  [JAVA_SOURCE_DIR, KOTLIN_SOURCE_DIR,
   [toStr "src", toStr "test", toStr "java"],
   [toStr "src", toStr "test", toStr "kotlin"],
   [toStr "src", toStr "androidTest", toStr "java"],
   [toStr "src", toStr "androidTest", toStr "kotlin"]]

/-- Source function updatePackageReferences: the guarded composition of
the project-wide rewrite, the per-directory restructuring, and the
descriptor updates.  The returned number counts the warnings logged. -/
def updatePackageReferences (fs : FS) (appModule : FsPath)
    (oldPackage newPackage : Str) : FS × Nat :=
  if oldPackage = [] ∨ newPackage = [] ∨ oldPackage = newPackage then (fs, 0)
  else
    let r1 := updateAllPackageReferencesInProject fs appModule oldPackage newPackage
    let r2 := List.foldl
      (fun acc sourceDir =>
        let sourcePath := appModule ++ sourceDir
        if existsSync acc.1 sourcePath then
          let r := restructurePackageDirectory acc.1 sourcePath oldPackage newPackage
          (r.1, acc.2 + r.2)
        else acc)
      r1 sourceDirsList
    let r3 := updateBuildFiles r2.1 appModule oldPackage newPackage
    let r4 := updateManifest r3.1 appModule oldPackage newPackage
    (r4.1, r2.2 + r3.2 + r4.2)


theorem ensureDirectoryExists_files (fs : FS) (p : FsPath) :
    (ensureDirectoryExists fs p).files = fs.files := by
  unfold ensureDirectoryExists
  split <;> rfl

theorem ensureDirectoryExists_readFail (fs : FS) (p : FsPath) :
    (ensureDirectoryExists fs p).readFail = fs.readFail := by
  unfold ensureDirectoryExists
  split <;> rfl

theorem ensureDirectoryExists_writeFail (fs : FS) (p : FsPath) :
    (ensureDirectoryExists fs p).writeFail = fs.writeFail := by
  unfold ensureDirectoryExists
  split <;> rfl

theorem getF_append (l1 l2 : List (FsPath × Str)) (p : FsPath) :
    getF (l1 ++ l2) p =
      (match getF l1 p with | some c => some c | none => getF l2 p) := by
  induction l1 with
  | nil => simp [getF]
  | cons e r ih =>
    by_cases h : e.1 = p <;> simp [getF, h, ih]

theorem getF_removeF_self (l : List (FsPath × Str)) (p : FsPath) :
    getF (removeF l p) p = none := by
  induction l with
  | nil => rfl
  | cons e r ih =>
    simp only [removeF]
    by_cases h : e.1 = p
    · rw [if_pos h]; exact ih
    · rw [if_neg h]
      simp only [getF, if_neg h]
      exact ih

theorem getF_removeF_ne (l : List (FsPath × Str)) (p q : FsPath) (h : q ≠ p) :
    getF (removeF l p) q = getF l q := by
  induction l with
  | nil => rfl
  | cons e r ih =>
    simp only [removeF]
    by_cases he : e.1 = p
    · rw [if_pos he]
      have : e.1 ≠ q := by rw [he]; exact fun hc => h hc.symm
      simp only [getF, if_neg this]
      exact ih
    · rw [if_neg he]
      by_cases heq : e.1 = q <;> simp only [getF, if_pos, if_neg, heq] <;> simp [heq, ih]

theorem getF_setF_self (l : List (FsPath × Str)) (p : FsPath) (c : Str) :
    getF (setF l p c) p = some c := by
  simp [setF, getF_append, getF_removeF_self, getF]

theorem getF_setF_ne (l : List (FsPath × Str)) (p q : FsPath) (c : Str) (h : q ≠ p) :
    getF (setF l p c) q = getF l q := by
  simp only [setF, getF_append, getF_removeF_ne l p q h]
  have hp : ¬ p = q := fun hc => h hc.symm
  rcases hg : getF l q with _ | d <;> simp [getF, hp]

theorem getF_delF_self (l : List (FsPath × Str)) (p : FsPath) :
    getF (delF l p) p = none := getF_removeF_self l p

theorem getF_delF_ne (l : List (FsPath × Str)) (p q : FsPath) (h : q ≠ p) :
    getF (delF l p) q = getF l q := getF_removeF_ne l p q h

theorem writeFileContent_readFail (fs : FS) (p : FsPath) (c : Str) :
    (writeFileContent fs p c).1.readFail = fs.readFail := by
  simp only [writeFileContent]
  split <;> simp [ensureDirectoryExists_readFail]

theorem writeFileContent_writeFail (fs : FS) (p : FsPath) (c : Str) :
    (writeFileContent fs p c).1.writeFail = fs.writeFail := by
  simp only [writeFileContent]
  split <;> simp [ensureDirectoryExists_writeFail]

theorem writeFileContent_snd (fs : FS) (p : FsPath) (c : Str) :
    (writeFileContent fs p c).2 = true ↔ ¬ p ∈ fs.writeFail := by
  simp only [writeFileContent]
  rw [ensureDirectoryExists_writeFail]
  split <;> simp_all

theorem writeFileContent_files (fs : FS) (p : FsPath) (c : Str) :
    (writeFileContent fs p c).1.files =
      if p ∈ fs.writeFail then fs.files else setF fs.files p c := by
  simp only [writeFileContent]
  rw [ensureDirectoryExists_writeFail]
  split <;> simp_all [ensureDirectoryExists_files]

theorem statSync_eq_file {fs : FS} {p : FsPath} (h : statSync fs p = .file) :
    (getF fs.files p).isSome := by
  unfold statSync at h
  by_cases h1 : (getF fs.files p).isSome
  · exact h1
  · rw [if_neg h1] at h
    split at h <;> simp_all

theorem statSync_file_of_getF {fs : FS} {p : FsPath} {c : Str}
    (h : getF fs.files p = some c) : statSync fs p = .file := by
  unfold statSync
  rw [h]
  rfl

theorem stripLit_self (w r : Str) : stripLit w (w ++ r) = some r := by
  induction w with
  | nil => rfl
  | cons c t ih => simp [stripLit, ih]

/-- C8: packageToPath and pathToPackage are strict inverses over
well-formed input: a namespace containing no path separator maps back
to itself, and a path containing no dot maps back to itself; segments
built from valid identifier characters satisfy both conditions. -/
theorem C8_codec_roundtrip (n p : Str) (hn : ¬ slashC ∈ n) (hp : ¬ dotC ∈ p) :
    pathToPackage (packageToPath n) = n ∧ packageToPath (pathToPackage p) = p := by
  constructor
  · unfold packageToPath pathToPackage
    rw [List.map_map]
    conv_rhs => rw [← List.map_id n]
    refine List.map_congr_left ?_
    intro c hc
    have hcs : c ≠ slashC := fun e => hn (e ▸ hc)
    by_cases h : c = dotC
    · subst h; simp [Function.comp]
    · simp [Function.comp, h, hcs]
  · unfold packageToPath pathToPackage
    rw [List.map_map]
    conv_rhs => rw [← List.map_id p]
    refine List.map_congr_left ?_
    intro c hc
    have hcd : c ≠ dotC := fun e => hp (e ▸ hc)
    by_cases h : c = slashC
    · subst h; simp [Function.comp]
    · simp [Function.comp, h, hcd]

/-- Witness for C8 at the concrete namespace com.acme.app and the
concrete path com/acme/app. -/
theorem C8_codec_roundtrip_witness :
    pathToPackage (packageToPath (toStr "com.acme.app")) = toStr "com.acme.app" ∧
    packageToPath (pathToPackage (toStr "com/acme/app")) = toStr "com/acme/app" :=
  C8_codec_roundtrip (toStr "com.acme.app") (toStr "com/acme/app") (by decide) (by decide)

/-- C7: invoking updatePackageReferences with identical old and new
namespaces is a complete no-op: the filesystem is returned unchanged
(zero moves, creations, removals and rewrites) and zero warnings are
emitted, because of the guard at the top of the function. -/
theorem C7_identical_namespaces_noop (fs : FS) (appModule : FsPath) (ns : Str) :
    updatePackageReferences fs appModule ns ns = (fs, 0) := by
  unfold updatePackageReferences
  rw [if_pos (Or.inr (Or.inr rfl))]

/-- C3 counterexample: the claim requires a declaration of a longer
namespace with the old namespace as a prefix to be left unaltered, but
the declaration pattern of updatePackageReferencesInContent has no end
anchor, so the line package com.acme.apptwo is rewritten to
package com.foo.bartwo. -/
theorem C3_counterexample :
    updatePackageReferencesInContent (toStr "package com.acme.apptwo")
        (toStr "com.acme.app") (toStr "com.foo.bar") = toStr "package com.foo.bartwo" ∧
    ¬ updatePackageReferencesInContent (toStr "package com.acme.apptwo")
        (toStr "com.acme.app") (toStr "com.foo.bar") = toStr "package com.acme.apptwo" :=
  ⟨by decide, by decide⟩

/-- C3 amended: the declaration-rewrite step matches the first
line-anchored occurrence of the keyword, whitespace and the old
namespace as a literal prefix, with no end anchor, and replaces exactly
that prefix while keeping the rest of the line; in particular an
exactly matching declaration, a declaration with extra identifier
characters, and a declaration of a deeper subpackage all have the
prefix replaced. -/
theorem C3_amended_prefix_rewrite (c0 : Char) (oldTail tail newP : Str)
    (hw : isWsChar c0 = false) :
    replacePkgDeclGo (c0 :: oldTail) newP
        (toStr "package " ++ (c0 :: oldTail) ++ tail) true
      = toStr "package " ++ newP ++ tail ∧
    updatePackageReferencesInContent (toStr "package com.acme.app")
        (toStr "com.acme.app") (toStr "com.foo.bar") = toStr "package com.foo.bar" ∧
    updatePackageReferencesInContent (toStr "package com.acme.apptwo")
        (toStr "com.acme.app") (toStr "com.foo.bar") = toStr "package com.foo.bartwo" ∧
    updatePackageReferencesInContent (toStr "package com.acme.app.extra")
        (toStr "com.acme.app") (toStr "com.foo.bar") = toStr "package com.foo.bar.extra" := by
  refine ⟨?_, by decide, by decide, by decide⟩
  have h2 : stripWs1 (Char.ofNat 32 :: ((c0 :: oldTail) ++ tail))
      = some ((c0 :: oldTail) ++ tail) := by
    simp only [stripWs1]
    rw [if_pos (by decide)]
    simp only [List.cons_append, List.dropWhile_cons]
    simp [hw]
  have hmatch : declPrefixMatchAt (c0 :: oldTail)
      (toStr "package" ++ (Char.ofNat 32 :: ((c0 :: oldTail) ++ tail))) = some tail := by
    unfold declPrefixMatchAt
    rw [stripLit_self]
    dsimp only
    rw [h2]
    dsimp only
    exact stripLit_self (c0 :: oldTail) tail
  have hshape : toStr "package " ++ (c0 :: oldTail) ++ tail
      = Char.ofNat 112 :: (toStr "ackage" ++ (Char.ofNat 32 :: ((c0 :: oldTail) ++ tail))) := by
    simp [toStr]
  rw [hshape]
  rw [replacePkgDeclGo]
  have hmatch2 : declPrefixMatchAt (c0 :: oldTail)
      (Char.ofNat 112 :: (toStr "ackage" ++ (Char.ofNat 32 :: ((c0 :: oldTail) ++ tail))))
      = some tail := by
    have h1 : Char.ofNat 112 :: (toStr "ackage" ++ (Char.ofNat 32 :: ((c0 :: oldTail) ++ tail)))
        = toStr "package" ++ (Char.ofNat 32 :: ((c0 :: oldTail) ++ tail)) := by
      simp [toStr]
    rw [h1]
    exact hmatch
  rw [if_pos rfl]
  rw [hmatch2]

/-- Witness for the universally quantified part of the amended C3 at a
concrete old namespace, remainder and new namespace. -/
theorem C3_amended_prefix_rewrite_witness :
    replacePkgDeclGo (toStr "com.acme.app") (toStr "com.foo.bar")
        (toStr "package " ++ toStr "com.acme.app" ++ toStr "two") true
      = toStr "package " ++ toStr "com.foo.bar" ++ toStr "two" :=
  (C3_amended_prefix_rewrite (Char.ofNat 99) (toStr "om.acme.app") (toStr "two")
    (toStr "com.foo.bar") (by decide)).1

/-- Concrete filesystem for C1: three source files under the old
package root, the second of which fails to read. -/
def fsAbort : FS :=
  { dirs := [[toStr "src"], [toStr "src", toStr "a"]]
    files := [([toStr "src", toStr "a", toStr "Z.kt"], toStr "package a\n"),
              ([toStr "src", toStr "a", toStr "A.kt"], toStr "package a\n"),
              ([toStr "src", toStr "a", toStr "B.kt"], toStr "package a\n")]
    readFail := [[toStr "src", toStr "a", toStr "A.kt"]]
    writeFail := [] }

/-- C1 counterexample: the claim requires a per-file read failure not
to prevent the remaining files from being moved, but the file loop of
movePackageStructure has no per-file catch, so when reading A.kt fails
the later file B.kt is left at its old location and never appears under
the new root. -/
theorem C1_counterexample :
    getF (restructurePackageDirectory fsAbort [toStr "src"]
        (toStr "a") (toStr "b")).1.files [toStr "src", toStr "b", toStr "B.kt"] = none ∧
    getF (restructurePackageDirectory fsAbort [toStr "src"]
        (toStr "a") (toStr "b")).1.files [toStr "src", toStr "a", toStr "B.kt"]
      = some (toStr "package a\n") :=
  ⟨by decide, by decide⟩

/-- C1 amended: a read or write failure for one file is recorded as a
warning and that file is left untouched at its original location, but
it aborts the move of the whole tree: files enumerated before the
failing one have been moved, while the failing file and every file
after it remain at their original locations. -/
theorem C1_amended_abort_semantics :
    (restructurePackageDirectory fsAbort [toStr "src"] (toStr "a") (toStr "b")).2 = 1 ∧
    getF (restructurePackageDirectory fsAbort [toStr "src"]
        (toStr "a") (toStr "b")).1.files [toStr "src", toStr "a", toStr "A.kt"]
      = some (toStr "package a\n") ∧
    getF (restructurePackageDirectory fsAbort [toStr "src"]
        (toStr "a") (toStr "b")).1.files [toStr "src", toStr "b", toStr "Z.kt"]
      = some (toStr "package b") ∧
    getF (restructurePackageDirectory fsAbort [toStr "src"]
        (toStr "a") (toStr "b")).1.files [toStr "src", toStr "a", toStr "Z.kt"] = none ∧
    getF (restructurePackageDirectory fsAbort [toStr "src"]
        (toStr "a") (toStr "b")).1.files [toStr "src", toStr "a", toStr "B.kt"]
      = some (toStr "package a\n") ∧
    getF (restructurePackageDirectory fsAbort [toStr "src"]
        (toStr "a") (toStr "b")).1.files [toStr "src", toStr "b", toStr "B.kt"] = none :=
  ⟨by decide, by decide, by decide, by decide, by decide, by decide⟩

/-- Concrete filesystem for C2: the physical layout has drifted, so the
located old package root for com.acme.app is com/acme, which coincides
with the new package root for com.acme. -/
def fsDrift : FS :=
  { dirs := [[toStr "src"], [toStr "src", toStr "com"], [toStr "src", toStr "com", toStr "acme"]]
    files := [([toStr "src", toStr "com", toStr "acme", toStr "F.kt"],
               toStr "package com.acme.app\n")]
    readFail := []
    writeFail := [] }

/-- C2 counterexample: the claim requires the configured source root
never to be deleted by pruning, but cleanupOldPackageStructure has no
boundary parameter; when the located old root coincides with the new
root the self-move unlinks every file and the upward pruning walk then
removes the source root itself. -/
theorem C2_counterexample :
    ¬ [toStr "src"] ∈ (restructurePackageDirectory fsDrift [toStr "src"]
        (toStr "com.acme.app") (toStr "com.acme")).1.dirs := by
  decide

theorem entriesUnder_ne_nil_of_file {fs : FS} {q d : FsPath} {c : Str}
    (h1 : (q, c) ∈ fs.files) (h2 : d <+: q) (h3 : d ≠ q) :
    entriesUnder fs d ≠ [] := by
  intro he
  have hmem : (q.drop d.length) ∈ entriesUnder fs d := by
    unfold entriesUnder
    apply List.mem_append_left
    refine List.mem_filterMap.2 ⟨(q, c), h1, ?_⟩
    rw [if_pos ⟨h2, fun e => h3 e.symm⟩]
  rw [he] at hmem
  exact absurd hmem (List.not_mem_nil _)

theorem cleanupGo_safe : ∀ (fuel : Nat) (fs : FS) (d p q : FsPath) (c : Str),
    (q, c) ∈ fs.files → p <+: q → p ≠ q → p ∈ fs.dirs →
    p ∈ (cleanupGo fuel fs d).dirs ∧ (cleanupGo fuel fs d).files = fs.files := by
  intro fuel
  induction fuel with
  | zero =>
    intro fs d p q c h1 h2 h3 h4
    rw [cleanupGo]
    by_cases hd : d ∈ fs.dirs
    · rw [if_pos hd]
      by_cases he : entriesUnder fs d = []
      · rw [if_pos he]
        have hpd : p ≠ d := by
          intro e
          subst e
          exact absurd he (entriesUnder_ne_nil_of_file h1 h2 h3)
        by_cases hdl : d.dropLast ≠ d
        · rw [if_pos hdl]
          exact ⟨List.mem_filter.2 ⟨h4, by simp [hpd]⟩, rfl⟩
        · rw [if_neg hdl]
          exact ⟨List.mem_filter.2 ⟨h4, by simp [hpd]⟩, rfl⟩
      · rw [if_neg he]
        exact ⟨h4, rfl⟩
    · rw [if_neg hd]
      exact ⟨h4, rfl⟩
  | succ fuel ih =>
    intro fs d p q c h1 h2 h3 h4
    rw [cleanupGo]
    by_cases hd : d ∈ fs.dirs
    · rw [if_pos hd]
      by_cases he : entriesUnder fs d = []
      · rw [if_pos he]
        have hpd : p ≠ d := by
          intro e
          subst e
          exact absurd he (entriesUnder_ne_nil_of_file h1 h2 h3)
        by_cases hdl : d.dropLast ≠ d
        · rw [if_pos hdl]
          have hrec := ih { fs with dirs := fs.dirs.filter (fun x => ¬ x = d) }
            d.dropLast p q c h1 h2 h3
            (List.mem_filter.2 ⟨h4, by simp [hpd]⟩)
          exact hrec
        · rw [if_neg hdl]
          exact ⟨List.mem_filter.2 ⟨h4, by simp [hpd]⟩, rfl⟩
      · rw [if_neg he]
        exact ⟨h4, rfl⟩
    · rw [if_neg hd]
      exact ⟨h4, rfl⟩

/-- C2 amended: pruning deletes the vacated directory only if it has no
entries and walks the same check upward; a directory that still has a
file anywhere beneath it is never deleted and pruning never removes
files, so a sibling directory still holding files survives.  However
there is no boundary check: nothing stops the walk at the configured
source root, which is itself deleted when the relocation empties its
whole subtree (see the counterexample). -/
theorem C2_amended_pruning (fs : FS) (d p q : FsPath) (c : Str)
    (h1 : (q, c) ∈ fs.files) (h2 : p <+: q) (h3 : p ≠ q) (h4 : p ∈ fs.dirs) :
    p ∈ (cleanupOldPackageStructure fs d).dirs ∧
    (cleanupOldPackageStructure fs d).files = fs.files := by
  unfold cleanupOldPackageStructure
  exact cleanupGo_safe d.length fs d p q c h1 h2 h3 h4

/-- Witness for the amended C2: pruning the vacated directory does not
touch a sibling directory that still holds a file. -/
theorem C2_amended_pruning_witness :
    [toStr "root", toStr "keep"] ∈
      (cleanupOldPackageStructure
        { dirs := [[toStr "root"], [toStr "root", toStr "gone"], [toStr "root", toStr "keep"]]
          files := [([toStr "root", toStr "keep", toStr "f.txt"], toStr "x")]
          readFail := [], writeFail := [] }
        [toStr "root", toStr "gone"]).dirs ∧
    (cleanupOldPackageStructure
        { dirs := [[toStr "root"], [toStr "root", toStr "gone"], [toStr "root", toStr "keep"]]
          files := [([toStr "root", toStr "keep", toStr "f.txt"], toStr "x")]
          readFail := [], writeFail := [] }
        [toStr "root", toStr "gone"]).files
      = [([toStr "root", toStr "keep", toStr "f.txt"], toStr "x")] :=
  C2_amended_pruning
    { dirs := [[toStr "root"], [toStr "root", toStr "gone"], [toStr "root", toStr "keep"]]
      files := [([toStr "root", toStr "keep", toStr "f.txt"], toStr "x")]
      readFail := [], writeFail := [] }
    [toStr "root", toStr "gone"] [toStr "root", toStr "keep"]
    [toStr "root", toStr "keep", toStr "f.txt"] (toStr "x")
    (by decide) (by decide) (by decide) (by decide)

/-- Exact-quoted-value assignment shape, following the wording of the
specification for the applicationId rewrite: the attribute key,
optional whitespace, an optional equals sign, optional whitespace, and
the old literal value enclosed in quote characters. -/
def appIdExactAssignment (old s rest : Str) : Prop :=
  ∃ w1 e w2 q1 q2,
    s = toStr "applicationId" ++ w1 ++ e ++ w2 ++ q1 :: (old ++ q2 :: rest) ∧
    (∀ x ∈ w1, isWsChar x = true) ∧ (∀ x ∈ w2, isWsChar x = true) ∧
    (e = [] ∨ e = [eqC]) ∧ isQuoteChar q1 = true ∧ isQuoteChar q2 = true

/-- Exact-quoted-value assignment shape, following the wording of the
specification for the manifest package attribute: the attribute key,
optional whitespace, an equals sign, optional whitespace, and the old
literal value enclosed in quote characters. -/
def pkgAttrExactAssignment (old s rest : Str) : Prop :=
  ∃ w1 w2 q1 q2,
    s = toStr "package" ++ w1 ++ eqC :: (w2 ++ q1 :: (old ++ q2 :: rest)) ∧
    (∀ x ∈ w1, isWsChar x = true) ∧ (∀ x ∈ w2, isWsChar x = true) ∧
    isQuoteChar q1 = true ∧ isQuoteChar q2 = true

theorem appIdMatchAt_sound {old s rest : Str} (h : appIdMatchAt old s = some rest) :
    appIdExactAssignment old s rest := by
  simp only [appIdMatchAt] at h
  rcases h1 : stripLit (toStr "applicationId") s with _ | r1 <;> rw [h1] at h <;> dsimp only at h
  · exact absurd h (by simp)
  · have hs1 : s = toStr "applicationId" ++ r1 := stripLit_sound _ _ _ h1
    have hr1 : r1 = r1.takeWhile isWsChar ++ r1.dropWhile isWsChar :=
      (List.takeWhile_append_dropWhile _ _).symm
    rcases hr2 : r1.dropWhile isWsChar with _ | ⟨c, t⟩ <;> rw [hr2] at h <;> dsimp only at h
    · simp at h
    · by_cases hc : c = eqC
      · rw [if_pos hc] at h
        have ht : t = t.takeWhile isWsChar ++ t.dropWhile isWsChar :=
          (List.takeWhile_append_dropWhile _ _).symm
        rcases hr4 : t.dropWhile isWsChar with _ | ⟨q1, t1⟩ <;> rw [hr4] at h <;> dsimp only at h
        · simp at h
        · by_cases hq1 : isQuoteChar q1 = true
          · rw [if_pos hq1] at h
            rcases h5 : stripLit old t1 with _ | r5 <;> rw [h5] at h <;> dsimp only at h
            · simp at h
            · have ht1 : t1 = old ++ r5 := stripLit_sound _ _ _ h5
              rcases hr5 : r5 with _ | ⟨q2, rest2⟩ <;> rw [hr5] at h <;> dsimp only at h
              · simp at h
              · by_cases hq2 : isQuoteChar q2 = true
                · rw [if_pos hq2] at h
                  have hrest : rest2 = rest := by simpa using h
                  refine ⟨r1.takeWhile isWsChar, [eqC], t.takeWhile isWsChar, q1, q2,
                    ?_, fun x hx => List.mem_takeWhile_imp hx,
                    fun x hx => List.mem_takeWhile_imp hx, Or.inr rfl, hq1, hq2⟩
                  rw [hs1]
                  conv_lhs => rw [hr1, hr2, hc, ht, hr4, ht1, hr5, hrest]
                  simp
                · rw [if_neg hq2] at h; exact absurd h (by simp)
          · rw [if_neg hq1] at h; exact absurd h (by simp)
      · rw [if_neg hc] at h
        have ht : (c :: t) = (c :: t).takeWhile isWsChar ++ (c :: t).dropWhile isWsChar :=
          (List.takeWhile_append_dropWhile _ _).symm
        rcases hr4 : (c :: t).dropWhile isWsChar with _ | ⟨q1, t1⟩ <;> rw [hr4] at h <;>
          dsimp only at h
        · simp at h
        · by_cases hq1 : isQuoteChar q1 = true
          · rw [if_pos hq1] at h
            rcases h5 : stripLit old t1 with _ | r5 <;> rw [h5] at h <;> dsimp only at h
            · simp at h
            · have ht1 : t1 = old ++ r5 := stripLit_sound _ _ _ h5
              rcases hr5 : r5 with _ | ⟨q2, rest2⟩ <;> rw [hr5] at h <;> dsimp only at h
              · simp at h
              · by_cases hq2 : isQuoteChar q2 = true
                · rw [if_pos hq2] at h
                  have hrest : rest2 = rest := by simpa using h
                  refine ⟨r1.takeWhile isWsChar, [], (c :: t).takeWhile isWsChar, q1, q2,
                    ?_, fun x hx => List.mem_takeWhile_imp hx,
                    fun x hx => List.mem_takeWhile_imp hx, Or.inl rfl, hq1, hq2⟩
                  rw [hs1]
                  conv_lhs => rw [hr1, hr2, ht, hr4, ht1, hr5, hrest]
                  simp
                · rw [if_neg hq2] at h; exact absurd h (by simp)
          · rw [if_neg hq1] at h; exact absurd h (by simp)

theorem pkgAttrMatchAt_sound {old s rest : Str} (h : pkgAttrMatchAt old s = some rest) :
    pkgAttrExactAssignment old s rest := by
  simp only [pkgAttrMatchAt] at h
  rcases h1 : stripLit (toStr "package") s with _ | r1 <;> rw [h1] at h <;> dsimp only at h
  · exact absurd h (by simp)
  · have hs1 : s = toStr "package" ++ r1 := stripLit_sound _ _ _ h1
    have hr1 : r1 = r1.takeWhile isWsChar ++ r1.dropWhile isWsChar :=
      (List.takeWhile_append_dropWhile _ _).symm
    rcases hr2 : r1.dropWhile isWsChar with _ | ⟨c, t⟩ <;> rw [hr2] at h <;> dsimp only at h
    · simp at h
    · by_cases hc : c = eqC
      · rw [if_pos hc] at h
        have ht : t = t.takeWhile isWsChar ++ t.dropWhile isWsChar :=
          (List.takeWhile_append_dropWhile _ _).symm
        rcases hr4 : t.dropWhile isWsChar with _ | ⟨q1, t1⟩ <;> rw [hr4] at h <;> dsimp only at h
        · simp at h
        · by_cases hq1 : isQuoteChar q1 = true
          · rw [if_pos hq1] at h
            rcases h5 : stripLit old t1 with _ | r5 <;> rw [h5] at h <;> dsimp only at h
            · simp at h
            · have ht1 : t1 = old ++ r5 := stripLit_sound _ _ _ h5
              rcases hr5 : r5 with _ | ⟨q2, rest2⟩ <;> rw [hr5] at h <;> dsimp only at h
              · simp at h
              · by_cases hq2 : isQuoteChar q2 = true
                · rw [if_pos hq2] at h
                  have hrest : rest2 = rest := by simpa using h
                  refine ⟨r1.takeWhile isWsChar, t.takeWhile isWsChar, q1, q2,
                    ?_, fun x hx => List.mem_takeWhile_imp hx,
                    fun x hx => List.mem_takeWhile_imp hx, hq1, hq2⟩
                  rw [hs1]
                  conv_lhs => rw [hr1, hr2, hc, ht, hr4, ht1, hr5, hrest]
                  simp
                · rw [if_neg hq2] at h; exact absurd h (by simp)
          · rw [if_neg hq1] at h; exact absurd h (by simp)
      · rw [if_neg hc] at h; exact absurd h (by simp)

theorem replaceAppIdGo_id (old newP : Str) :
    ∀ (fuel : Nat) (s : Str), (∀ b ∈ s.tails, appIdMatchAt old b = none) →
    replaceAppIdGo old newP fuel s = s := by
  intro fuel
  induction fuel with
  | zero => intro s _; cases s <;> rfl
  | succ fuel ih =>
    intro s h
    cases s with
    | nil => rfl
    | cons c r =>
      have h0 : appIdMatchAt old (c :: r) = none :=
        h (c :: r) ((List.mem_tails _ _).2 (List.suffix_refl _))
      have hr : ∀ b ∈ r.tails, appIdMatchAt old b = none := by
        intro b hb
        apply h
        rw [List.mem_tails] at hb ⊢
        exact hb.trans (List.suffix_cons c r)
      simp only [replaceAppIdGo, h0]
      rw [ih r hr]

theorem replacePkgAttrGo_id (old newP : Str) :
    ∀ (fuel : Nat) (s : Str), (∀ b ∈ s.tails, pkgAttrMatchAt old b = none) →
    replacePkgAttrGo old newP fuel s = s := by
  intro fuel
  induction fuel with
  | zero => intro s _; cases s <;> rfl
  | succ fuel ih =>
    intro s h
    cases s with
    | nil => rfl
    | cons c r =>
      have h0 : pkgAttrMatchAt old (c :: r) = none :=
        h (c :: r) ((List.mem_tails _ _).2 (List.suffix_refl _))
      have hr : ∀ b ∈ r.tails, pkgAttrMatchAt old b = none := by
        intro b hb
        apply h
        rw [List.mem_tails] at hb ⊢
        exact hb.trans (List.suffix_cons c r)
      simp only [replacePkgAttrGo, h0]
      rw [ih r hr]

/-- C9: the descriptor rewrites replace only positions decomposing as
an exact-quoted-value assignment of the attribute key with the old
literal as the whole quoted value (the two soundness conjuncts); a
content with no such position is returned untouched (the two identity
conjuncts); and concretely the value com.acme.app is rewritten while
the coincidentally similar value com.acme.app2 is left untouched. -/
theorem C9_descriptor_exact_value (content oldPackage newPackage : Str)
    (h1 : ∀ b ∈ content.tails, appIdMatchAt oldPackage b = none)
    (h2 : ∀ b ∈ content.tails, pkgAttrMatchAt oldPackage b = none) :
    updateBuildFilesContent content oldPackage newPackage = content ∧
    updateManifestContent content oldPackage newPackage = content ∧
    (∀ s rest, appIdMatchAt oldPackage s = some rest →
      appIdExactAssignment oldPackage s rest) ∧
    (∀ s rest, pkgAttrMatchAt oldPackage s = some rest →
      pkgAttrExactAssignment oldPackage s rest) ∧
    updateBuildFilesContent (toStr "applicationId = \x22com.acme.app\x22")
        (toStr "com.acme.app") (toStr "com.foo.bar")
      = toStr "applicationId \x22com.foo.bar\x22" ∧
    updateBuildFilesContent (toStr "applicationId = \x22com.acme.app2\x22")
        (toStr "com.acme.app") (toStr "com.foo.bar")
      = toStr "applicationId = \x22com.acme.app2\x22" ∧
    updateManifestContent (toStr "package=\x22com.acme.app\x22")
        (toStr "com.acme.app") (toStr "com.foo.bar")
      = toStr "package=\x22com.foo.bar\x22" :=
  ⟨replaceAppIdGo_id oldPackage newPackage content.length content h1,
   replacePkgAttrGo_id oldPackage newPackage content.length content h2,
   fun _ _ hm => appIdMatchAt_sound hm,
   fun _ _ hm => pkgAttrMatchAt_sound hm,
   by decide, by decide, by decide⟩

/-- Witness for C9 at the concrete descriptor line whose quoted value
extends the old namespace by one character. -/
theorem C9_descriptor_exact_value_witness :
    updateBuildFilesContent (toStr "applicationId = \x22com.acme.app2\x22")
        (toStr "com.acme.app") (toStr "com.foo.bar")
      = toStr "applicationId = \x22com.acme.app2\x22" ∧
    updateManifestContent (toStr "applicationId = \x22com.acme.app2\x22")
        (toStr "com.acme.app") (toStr "com.foo.bar")
      = toStr "applicationId = \x22com.acme.app2\x22" :=
  ⟨(C9_descriptor_exact_value (toStr "applicationId = \x22com.acme.app2\x22")
      (toStr "com.acme.app") (toStr "com.foo.bar") (by decide) (by decide)).1,
   (C9_descriptor_exact_value (toStr "applicationId = \x22com.acme.app2\x22")
      (toStr "com.acme.app") (toStr "com.foo.bar") (by decide) (by decide)).2.1⟩

theorem findPkgLoop_none (fs : FS) (sp : FsPath) :
    ∀ l : List FsPath, (∀ f ∈ l, isSourceEntry f = true →
      extractPackageFromFile fs (sp ++ f) = none) → findPkgLoop fs sp l = none := by
  intro l
  induction l with
  | nil => intro _; rfl
  | cons f r ih =>
    intro h
    rw [findPkgLoop]
    by_cases hf : isSourceEntry f = true
    · rw [if_pos hf, h f (List.mem_cons_self f r) hf]
      exact ih (fun g hg hsg => h g (List.mem_cons_of_mem f hg) hsg)
    · rw [if_neg hf]
      exact ih (fun g hg hsg => h g (List.mem_cons_of_mem f hg) hsg)

/-- C10: namespace extraction is total at the public interface:
extractPackageFromFile returns none on a missing or unreadable file and
otherwise exactly the capture of the first line-anchored declaration
match over the content; consequently detectExistingPackage returns none
rather than failing when no recognised source file under the java or
kotlin main directory yields a namespace. -/
theorem C10_extraction_total (fs : FS) (appModule : FsPath) :
    (∀ p, readFileContent fs p = none → extractPackageFromFile fs p = none) ∧
    (∀ p content, readFileContent fs p = some content →
      extractPackageFromFile fs p = extractFirstPackage content true) ∧
    ((∀ f ∈ entriesUnder fs (appModule ++ JAVA_SOURCE_DIR), isSourceEntry f = true →
        extractPackageFromFile fs (appModule ++ JAVA_SOURCE_DIR ++ f) = none) →
     (∀ f ∈ entriesUnder fs (appModule ++ KOTLIN_SOURCE_DIR), isSourceEntry f = true →
        extractPackageFromFile fs (appModule ++ KOTLIN_SOURCE_DIR ++ f) = none) →
     detectExistingPackage fs appModule = none) := by
  refine ⟨?_, ?_, ?_⟩
  · intro p hp
    unfold extractPackageFromFile
    rw [hp]
  · intro p content hp
    unfold extractPackageFromFile
    rw [hp]
  · intro hj hk
    unfold detectExistingPackage
    have h1 : findPackageInDirectory fs (appModule ++ JAVA_SOURCE_DIR) = none := by
      unfold findPackageInDirectory
      split
      · exact findPkgLoop_none _ _ _ hj
      · rfl
    have h2 : findPackageInDirectory fs (appModule ++ KOTLIN_SOURCE_DIR) = none := by
      unfold findPackageInDirectory
      split
      · exact findPkgLoop_none _ _ _ hk
      · rfl
    rw [h1]
    dsimp only
    exact h2

/-- Concrete filesystem for the C10 witness: the only candidate source
file declares no namespace. -/
def fsNoPkg : FS :=
  { dirs := [[toStr "app"], [toStr "app", toStr "src"], [toStr "app", toStr "src", toStr "main"],
             [toStr "app", toStr "src", toStr "main", toStr "java"]]
    files := [([toStr "app", toStr "src", toStr "main", toStr "java", toStr "A.kt"],
               toStr "// no declaration\n")]
    readFail := []
    writeFail := [] }

/-- Witness for C10: on the concrete filesystem the detection returns
none instead of failing. -/
theorem C10_extraction_total_witness :
    detectExistingPackage fsNoPkg [toStr "app"] = none :=
  (C10_extraction_total fsNoPkg [toStr "app"]).2.2 (by decide) (by decide)

/-- Decomposition of a content string at the first match of the
full-declaration pattern, scanning line starts exactly as the
replacement does: the text before the match, the matched text, and the
remainder. -/
def firstDeclSplitGo : Str → Bool → Option (Str × Str × Str)
  | [], _ => none
  | c :: r, atLS =>
    if atLS then
      match fullDeclMatchAt (c :: r) with
      | some (m, rest) => some ([], m, rest)
      | none =>
        match firstDeclSplitGo r (isBreakChar c) with
        | some (pre, m, rest) => some (c :: pre, m, rest)
        | none => none
    else
      match firstDeclSplitGo r (isBreakChar c) with
      | some (pre, m, rest) => some (c :: pre, m, rest)
      | none => none

/-- Decomposition at the first declaration match of a whole content. -/
def firstDeclSplit (content : Str) : Option (Str × Str × Str) :=
  firstDeclSplitGo content true

theorem replaceFullDeclGo_split (newDecl : Str) :
    ∀ (s : Str) (b : Bool) (pre m post : Str),
    firstDeclSplitGo s b = some (pre, m, post) →
    replaceFullDeclGo newDecl s b = pre ++ newDecl ++ post := by
  intro s
  induction s with
  | nil => intro b pre m post h; simp [firstDeclSplitGo] at h
  | cons c r ih =>
    intro b pre m post h
    cases b with
    | false =>
      rw [firstDeclSplitGo, if_neg (by simp)] at h
      rw [replaceFullDeclGo, if_neg (by simp)]
      rcases hrec : firstDeclSplitGo r (isBreakChar c) with _ | ⟨pre2, m2, post2⟩ <;>
        rw [hrec] at h <;> dsimp only at h
      · exact absurd h (by simp)
      · obtain ⟨h1, h2, h3⟩ : c :: pre2 = pre ∧ m2 = m ∧ post2 = post := by
          simpa using h
        rw [ih (isBreakChar c) pre2 m2 post2 hrec, ← h1, h3]
        simp
    | true =>
      rw [firstDeclSplitGo, if_pos rfl] at h
      rw [replaceFullDeclGo, if_pos rfl]
      rcases hm : fullDeclMatchAt (c :: r) with _ | ⟨mm, rest⟩ <;> rw [hm] at h <;>
        dsimp only at h
      · rcases hrec : firstDeclSplitGo r (isBreakChar c) with _ | ⟨pre2, m2, post2⟩ <;>
          rw [hrec] at h <;> dsimp only at h
        · exact absurd h (by simp)
        · obtain ⟨h1, h2, h3⟩ : c :: pre2 = pre ∧ m2 = m ∧ post2 = post := by
            simpa using h
          rw [ih (isBreakChar c) pre2 m2 post2 hrec, ← h1, h3]
          simp
      · obtain ⟨h1, h2, h3⟩ : ([] : Str) = pre ∧ mm = m ∧ rest = post := by
          simpa using h
        rw [← h1, h3]
        simp

/-- Effective namespace of a moved file, following the specification
formula: the new namespace when the directory component of the relative
path is empty, otherwise the new namespace extended by a dot and the
namespace form of the directory component. -/
def effectiveNamespace (newPackage : Str) (f : FsPath) : Str :=
  if f.dropLast = [] then newPackage
  else newPackage ++ dotC :: pathToPackage (joinC slashC f.dropLast)

theorem updateDecl_effective (content newPackage : Str) (f : FsPath)
    (pre m post : Str) (hdecl : firstDeclSplit content = some (pre, m, post))
    (hcomp : f.dropLast ≠ [] →
      joinC slashC f.dropLast ≠ [] ∧ joinC slashC f.dropLast ≠ [dotC]) :
    updatePackageDeclarationWithSubdir content newPackage (relDirname f)
      = pre ++ (toStr "package " ++ effectiveNamespace newPackage f) ++ post := by
  unfold updatePackageDeclarationWithSubdir relDirname effectiveNamespace
  by_cases hd : f.dropLast = []
  · rw [if_pos hd, if_pos hd]
    rw [if_neg (by simp)]
    exact replaceFullDeclGo_split _ content true pre m post hdecl
  · rw [if_neg hd, if_neg hd]
    obtain ⟨h1, h2⟩ := hcomp hd
    rw [if_pos ⟨h1, h2⟩]
    exact replaceFullDeclGo_split _ content true pre m post hdecl

/-- C5 amended: for a recognised source file processed by the move
loop at relative path f whose content holds a declaration line fully
matching the anchored pattern of the mover (keyword, whitespace, dotted
identifier, then only whitespace up to the end of the line), when the
stat, read, write and unlink of the iteration succeed, the file written
at the new root carries the declaration line package followed by the
effective namespace of the specification formula (the new namespace,
extended by the dot-form of the directory component when that component
is non-empty), with the surrounding content unchanged; the original at
the old root is deleted.  A declaration that does not fully match the
pattern, such as the semicolon-terminated Java form, is left unchanged
by the rewrite while the file is still moved (see the counterexample
for the unamended claim). -/
theorem C5_subpackage_preserved (fs : FS) (oldPackageRoot newPackageRoot : FsPath)
    (newPackage : Str) (f : FsPath) (content pre m post : Str)
    (hne : oldPackageRoot ≠ newPackageRoot)
    (hsrc : isSourceEntry f = true)
    (hc : getF fs.files (oldPackageRoot ++ f) = some content)
    (hrf : ¬ (oldPackageRoot ++ f) ∈ fs.readFail)
    (hwf : ¬ (newPackageRoot ++ f) ∈ fs.writeFail)
    (hdecl : firstDeclSplit content = some (pre, m, post))
    (hcomp : f.dropLast ≠ [] →
      joinC slashC f.dropLast ≠ [] ∧ joinC slashC f.dropLast ≠ [dotC]) :
    getF (processEntry fs oldPackageRoot newPackageRoot newPackage f).1.files
        (newPackageRoot ++ f)
      = some (pre ++ (toStr "package " ++ effectiveNamespace newPackage f) ++ post) ∧
    getF (processEntry fs oldPackageRoot newPackageRoot newPackage f).1.files
        (oldPackageRoot ++ f) = none := by
  have hold_ne : (oldPackageRoot ++ f) ≠ (newPackageRoot ++ f) := by
    intro e
    exact hne (List.append_cancel_right e)
  have hnew_ne : (newPackageRoot ++ f) ≠ (oldPackageRoot ++ f) := fun e => hold_ne e.symm
  simp only [processEntry]
  rw [statSync_file_of_getF hc]
  dsimp only
  rw [if_pos hsrc]
  have hfs1files := ensureDirectoryExists_files fs (newPackageRoot ++ f).dropLast
  have hfs1rf := ensureDirectoryExists_readFail fs (newPackageRoot ++ f).dropLast
  have hfs1wf := ensureDirectoryExists_writeFail fs (newPackageRoot ++ f).dropLast
  have hread : readFileContent (ensureDirectoryExists fs (newPackageRoot ++ f).dropLast)
      (oldPackageRoot ++ f) = some content := by
    unfold readFileContent
    rw [hfs1rf, if_neg hrf, hfs1files]
    exact hc
  rw [hread]
  dsimp only
  have hw2 : (writeFileContent (ensureDirectoryExists fs (newPackageRoot ++ f).dropLast)
      (newPackageRoot ++ f)
      (updatePackageDeclarationWithSubdir content newPackage (relDirname f))).2 = true := by
    rw [writeFileContent_snd, hfs1wf]
    exact hwf
  rw [if_pos hw2]
  have hwfiles : (writeFileContent (ensureDirectoryExists fs (newPackageRoot ++ f).dropLast)
      (newPackageRoot ++ f)
      (updatePackageDeclarationWithSubdir content newPackage (relDirname f))).1.files
      = setF fs.files (newPackageRoot ++ f)
          (updatePackageDeclarationWithSubdir content newPackage (relDirname f)) := by
    rw [writeFileContent_files, hfs1wf, hfs1files, if_neg hwf]
  unfold unlinkSync
  rw [hwfiles, getF_setF_ne _ _ _ _ hold_ne, hc]
  dsimp only
  constructor
  · rw [getF_delF_ne _ _ _ hnew_ne, getF_setF_self]
    rw [updateDecl_effective content newPackage f pre m post hdecl hcomp]
  · rw [getF_delF_self]

/-- Witness for C5: a file at sub slash File.kt under the old root
lands at the mirrored path under the new root and declares the new
namespace extended by sub. -/
theorem C5_subpackage_preserved_witness :
    getF (processEntry
        { dirs := [[toStr "src"], [toStr "src", toStr "old"],
                   [toStr "src", toStr "old", toStr "sub"]]
          files := [([toStr "src", toStr "old", toStr "sub", toStr "File.kt"],
                     toStr "package old.sub\nclass A\n")]
          readFail := [], writeFail := [] }
        [toStr "src", toStr "old"] [toStr "src", toStr "new"] (toStr "new")
        [toStr "sub", toStr "File.kt"]).1.files
      [toStr "src", toStr "new", toStr "sub", toStr "File.kt"]
    = some (toStr "" ++ (toStr "package " ++
        effectiveNamespace (toStr "new") [toStr "sub", toStr "File.kt"]) ++
        toStr "\nclass A\n") :=
  (C5_subpackage_preserved
    { dirs := [[toStr "src"], [toStr "src", toStr "old"], [toStr "src", toStr "old", toStr "sub"]]
      files := [([toStr "src", toStr "old", toStr "sub", toStr "File.kt"],
                 toStr "package old.sub\nclass A\n")]
      readFail := [], writeFail := [] }
    [toStr "src", toStr "old"] [toStr "src", toStr "new"] (toStr "new")
    [toStr "sub", toStr "File.kt"] (toStr "package old.sub\nclass A\n")
    (toStr "") (toStr "package old.sub") (toStr "\nclass A\n")
    (by decide) (by decide) (by decide) (by decide) (by decide) (by decide) (by decide)).1

/-- C4: per-file safety of the move loop.  For any filesystem and any
relative path, if the iteration of movePackageStructure for that file
throws, the binding of the file at the old root is unchanged; and
whenever the file existed at the old root and is gone afterwards, a
replacement is present at the mirrored path under the new root, because
the unlink runs only after the write or copy succeeded. -/
theorem C4_delete_only_after_write (fs : FS) (oldPackageRoot newPackageRoot : FsPath)
    (newPackage : Str) (f : FsPath) (hne : oldPackageRoot ≠ newPackageRoot) :
    ((processEntry fs oldPackageRoot newPackageRoot newPackage f).2.2 = true →
      getF (processEntry fs oldPackageRoot newPackageRoot newPackage f).1.files
        (oldPackageRoot ++ f) = getF fs.files (oldPackageRoot ++ f)) ∧
    (∀ c, getF fs.files (oldPackageRoot ++ f) = some c →
      getF (processEntry fs oldPackageRoot newPackageRoot newPackage f).1.files
        (oldPackageRoot ++ f) = none →
      ∃ c2, getF (processEntry fs oldPackageRoot newPackageRoot newPackage f).1.files
        (newPackageRoot ++ f) = some c2) := by
  have hold_ne : (oldPackageRoot ++ f) ≠ (newPackageRoot ++ f) := fun e =>
    hne (List.append_cancel_right e)
  have hnew_ne : (newPackageRoot ++ f) ≠ (oldPackageRoot ++ f) := fun e => hold_ne e.symm
  have hfs1files := ensureDirectoryExists_files fs (newPackageRoot ++ f).dropLast
  have hfs1rf := ensureDirectoryExists_readFail fs (newPackageRoot ++ f).dropLast
  have hfs1wf := ensureDirectoryExists_writeFail fs (newPackageRoot ++ f).dropLast
  simp only [processEntry]
  rcases hstat : statSync fs (oldPackageRoot ++ f) with _ | _ | _ <;> dsimp only
  case file =>
    by_cases hsrc : isSourceEntry f = true
    · rw [if_pos hsrc]
      rcases hread : readFileContent (ensureDirectoryExists fs (newPackageRoot ++ f).dropLast)
          (oldPackageRoot ++ f) with _ | content <;> dsimp only
      · exact ⟨fun _ => by rw [hfs1files],
          fun c hc h0 => absurd (by rw [hfs1files, hc] at h0; exact h0) (by simp)⟩
      · by_cases hw2 : (writeFileContent (ensureDirectoryExists fs
            (newPackageRoot ++ f).dropLast) (newPackageRoot ++ f)
            (updatePackageDeclarationWithSubdir content newPackage (relDirname f))).2 = true
        · rw [if_pos hw2]
          have hnw : ¬ (newPackageRoot ++ f) ∈
              (ensureDirectoryExists fs (newPackageRoot ++ f).dropLast).writeFail :=
            (writeFileContent_snd _ _ _).1 hw2
          have hw1files : (writeFileContent (ensureDirectoryExists fs
              (newPackageRoot ++ f).dropLast) (newPackageRoot ++ f)
              (updatePackageDeclarationWithSubdir content newPackage (relDirname f))).1.files
              = setF fs.files (newPackageRoot ++ f)
                  (updatePackageDeclarationWithSubdir content newPackage (relDirname f)) := by
            rw [writeFileContent_files, if_neg hnw, hfs1files]
          unfold unlinkSync
          rw [hw1files, getF_setF_ne _ _ _ _ hold_ne]
          rcases horig : getF fs.files (oldPackageRoot ++ f) with _ | c0 <;> dsimp only
          · refine ⟨fun _ => ?_, fun c hc _ => absurd hc (by simp)⟩
            rw [hw1files, getF_setF_ne _ _ _ _ hold_ne]
            exact horig
          · refine ⟨fun h => absurd h (by simp), fun c hc h0 => ?_⟩
            exact ⟨updatePackageDeclarationWithSubdir content newPackage (relDirname f),
              by rw [getF_delF_ne _ _ _ hnew_ne, getF_setF_self]⟩
        · rw [if_neg hw2]
          have hmem : (newPackageRoot ++ f) ∈
              (ensureDirectoryExists fs (newPackageRoot ++ f).dropLast).writeFail := by
            by_contra hh
            exact hw2 ((writeFileContent_snd _ _ _).2 hh)
          have hwfe : (writeFileContent (ensureDirectoryExists fs
              (newPackageRoot ++ f).dropLast) (newPackageRoot ++ f)
              (updatePackageDeclarationWithSubdir content newPackage (relDirname f))).1.files
              = fs.files := by
            rw [writeFileContent_files, if_pos hmem, hfs1files]
          exact ⟨fun _ => by rw [hwfe],
            fun c hc h0 => absurd (by rw [hwfe, hc] at h0; exact h0) (by simp)⟩
    · rw [if_neg hsrc]
      simp only [copyFileSync]
      rw [hfs1rf, hfs1files, hfs1wf]
      by_cases hrf1 : (oldPackageRoot ++ f) ∈ fs.readFail
      · rw [if_pos hrf1]
        dsimp only
        rw [if_neg (show ¬ (false = true) by simp)]
        dsimp only
        exact ⟨fun _ => by rw [hfs1files],
          fun c hc h0 => absurd (by rw [hfs1files, hc] at h0; exact h0) (by simp)⟩
      · rw [if_neg hrf1]
        rcases horig : getF fs.files (oldPackageRoot ++ f) with _ | c0 <;> dsimp only
        · rw [if_neg (show ¬ (false = true) by simp)]
          dsimp only
          refine ⟨fun _ => ?_, fun c hc _ => absurd hc (by simp)⟩
          rw [hfs1files]
          exact horig
        · by_cases hwf1 : (newPackageRoot ++ f) ∈ fs.writeFail
          · rw [if_pos hwf1]
            dsimp only
            rw [if_neg (show ¬ (false = true) by simp)]
            dsimp only
            refine ⟨fun _ => ?_, fun c hc h0 => ?_⟩
            · rw [hfs1files]
              exact horig
            · rw [hfs1files, horig] at h0
              exact absurd h0 (by simp)
          · rw [if_neg hwf1]
            dsimp only
            rw [if_pos (show true = true from rfl)]
            dsimp only
            unfold unlinkSync
            dsimp only
            rw [getF_setF_ne _ _ _ _ hold_ne, horig]
            dsimp only
            refine ⟨fun h => absurd h (by simp), fun c hc h0 => ?_⟩
            exact ⟨c0, by rw [getF_delF_ne _ _ _ hnew_ne, getF_setF_self]⟩
  case dir =>
    exact ⟨fun h => absurd h (by simp),
      fun c hc h0 => absurd (hc ▸ h0) (by simp)⟩
  case err =>
    exact ⟨fun _ => rfl, fun c hc h0 => absurd (hc ▸ h0) (by simp)⟩

/-- Concrete filesystem for the C4 witness: the write of the moved file
fails. -/
def fsWriteFail : FS :=
  { dirs := [[toStr "src"], [toStr "src", toStr "old"]]
    files := [([toStr "src", toStr "old", toStr "F.kt"], toStr "package old\n")]
    readFail := []
    writeFail := [[toStr "src", toStr "new", toStr "F.kt"]] }

/-- Witness for C4 at a concrete iteration whose write fails: the
iteration reports an error and the original binding is unchanged. -/
theorem C4_delete_only_after_write_witness :
    getF (processEntry fsWriteFail
        [toStr "src", toStr "old"] [toStr "src", toStr "new"] (toStr "new")
        [toStr "F.kt"]).1.files [toStr "src", toStr "old", toStr "F.kt"]
      = getF fsWriteFail.files [toStr "src", toStr "old", toStr "F.kt"] :=
  (C4_delete_only_after_write fsWriteFail
    [toStr "src", toStr "old"] [toStr "src", toStr "new"] (toStr "new")
    [toStr "F.kt"] (by decide)).1 (by decide)

/-- Directory test following the wording of the specification: at
least one recognised source file, as opposed to any entry, anywhere in
the subtree.  Used to compare findOldPackageRoot against the
specification. -/
def dirContainsSourceFile (fs : FS) (dir : FsPath) : Bool :=
  fs.files.any fun e =>
    if dir <+: e.1 ∧ e.1 ≠ dir then isSourceEntry (e.1.drop dir.length) else false

/-- Descending loop of the specification locator over shrinking
namespace slices, requiring an existing directory containing at least
one recognised source file. -/
def findRootLoopSpec (fs : FS) (sourcePath : FsPath) (parts : List Str) : Nat → Option FsPath
  | 0 => none
  | i + 1 =>
    let candidatePath :=
      sourcePath ++ splitOnSlash (packageToPath (joinC dotC (parts.take (i + 1))))
    if candidatePath ∈ fs.dirs ∧ dirContainsSourceFile fs candidatePath then some candidatePath
    else findRootLoopSpec fs sourcePath parts i

/-- The locator as worded by the specification: the exact namespace
directory when it exists, otherwise the first namespace slice, from the
full segment count down to one, whose directory exists and contains at
least one recognised source file anywhere in its subtree, otherwise
none. -/
def findOldPackageRootSpec (fs : FS) (sourcePath : FsPath) (oldPackage : Str) : Option FsPath :=
  if oldPackage = [] then none
  else
    let oldPackageRoot := sourcePath ++ splitOnSlash (packageToPath oldPackage)
    if oldPackageRoot ∈ fs.dirs then some oldPackageRoot
    else
      let packageParts := splitOnC dotC oldPackage
      findRootLoopSpec fs sourcePath packageParts packageParts.length

theorem existsSync_eq_dirs {fs : FS} {p : FsPath} (h : getF fs.files p = none) :
    existsSync fs p = true ↔ p ∈ fs.dirs := by
  unfold existsSync
  by_cases hd : p ∈ fs.dirs
  · rw [if_pos hd]
    simp [hd]
  · rw [if_neg hd, h]
    simp [hd]

theorem getLast_drop_eq : ∀ (d : FsPath) (k : Nat), k < d.length →
    (d.drop k).getLast? = d.getLast? := by
  intro d
  induction d with
  | nil => intro k h; simp at h
  | cons a t ih =>
    intro k h
    cases k with
    | zero => rfl
    | succ k =>
      simp only [List.drop_succ_cons]
      have hk : k < t.length := by
        simp only [List.length_cons] at h
        omega
      rw [ih k hk]
      cases t with
      | nil => simp at hk
      | cons b r => rw [List.getLast?_cons_cons]

theorem isSourceEntry_drop {d : FsPath} {k : Nat} (h : k < d.length) :
    isSourceEntry (d.drop k) = isSourceEntry d := by
  unfold isSourceEntry
  rw [getLast_drop_eq d k h]

theorem any_filterMap_files (l : List (FsPath × Str)) (dir : FsPath) :
    ((l.filterMap fun e =>
        if dir <+: e.1 ∧ e.1 ≠ dir then some (e.1.drop dir.length) else none).any
      isSourceEntry)
    = l.any fun e =>
        if dir <+: e.1 ∧ e.1 ≠ dir then isSourceEntry (e.1.drop dir.length) else false := by
  induction l with
  | nil => rfl
  | cons e r ih =>
    simp only [List.filterMap_cons]
    by_cases hcond : dir <+: e.1 ∧ e.1 ≠ dir
    · rw [if_pos hcond]
      simp only [List.any_cons, ih, if_pos hcond]
    · rw [if_neg hcond]
      simp only [List.any_cons, ih, if_neg hcond, Bool.false_or]

theorem any_filterMap_dirs_false (dir : FsPath) :
    ∀ (l : List FsPath), (∀ d ∈ l, isSourceEntry d = false) →
    ((l.filterMap fun d2 =>
        if dir <+: d2 ∧ d2 ≠ dir then some (d2.drop dir.length) else none).any
      isSourceEntry) = false := by
  intro l
  induction l with
  | nil => intro _; rfl
  | cons d r ih =>
    intro h
    simp only [List.filterMap_cons]
    by_cases hcond : dir <+: d ∧ d ≠ dir
    · rw [if_pos hcond]
      simp only [List.any_cons]
      have hlen : dir.length < d.length := by
        rcases hcond.1 with ⟨t, rfl⟩
        cases t with
        | nil => exact absurd (by simp) hcond.2
        | cons x xs => simp
      rw [isSourceEntry_drop hlen, h d (List.mem_cons_self d r),
        ih (fun g hg => h g (List.mem_cons_of_mem d hg))]
      rfl
    · rw [if_neg hcond]
      exact ih (fun g hg => h g (List.mem_cons_of_mem d hg))

theorem hasSourceFiles_spec {fs : FS} (hnd : ∀ d ∈ fs.dirs, isSourceEntry d = false)
    {dir : FsPath} (hdir : dir ∈ fs.dirs) :
    hasSourceFiles fs dir = dirContainsSourceFile fs dir := by
  unfold hasSourceFiles entriesUnder dirContainsSourceFile
  rw [if_pos hdir, List.any_append, any_filterMap_files,
    any_filterMap_dirs_false dir fs.dirs hnd, Bool.or_false]

theorem findRootLoop_eq_spec (fs : FS) (sourcePath : FsPath) (parts : List Str)
    (hnd : ∀ d ∈ fs.dirs, isSourceEntry d = false)
    (hnf : ∀ i ∈ List.range (parts.length + 1),
      getF fs.files (sourcePath ++ splitOnSlash (packageToPath
        (joinC dotC (parts.take i)))) = none) :
    ∀ k, k ≤ parts.length →
      findRootLoop fs sourcePath parts k = findRootLoopSpec fs sourcePath parts k := by
  intro k
  induction k with
  | zero => intro _; rfl
  | succ i ih =>
    intro hk
    rw [findRootLoop, findRootLoopSpec]
    have hcand := hnf (i + 1) (List.mem_range.2 (by omega))
    have hx := existsSync_eq_dirs hcand
    by_cases hd : (sourcePath ++ splitOnSlash (packageToPath
        (joinC dotC (parts.take (i + 1))))) ∈ fs.dirs
    · rw [if_pos (hx.2 hd)]
      rw [hasSourceFiles_spec hnd hd]
      by_cases hs : dirContainsSourceFile fs (sourcePath ++ splitOnSlash (packageToPath
          (joinC dotC (parts.take (i + 1))))) = true
      · rw [if_pos hs, if_pos ⟨hd, hs⟩]
      · rw [if_neg hs, if_neg (fun hc => hs hc.2), ih (by omega)]
    · rw [if_neg (fun hc => hd (hx.1 hc)), if_neg (fun hc => hd hc.1), ih (by omega)]

/-- C6: under a filesystem whose candidate namespace paths are not
files and whose directories are not named like source files (the
conditions under which existsSync means directory existence and the
recursive listing test means a source-file test), findOldPackageRoot
computes exactly the locator of the specification: the exact namespace
directory when it exists, otherwise the first shrinking namespace slice
whose directory exists and contains a recognised source file anywhere
in its subtree, otherwise none. -/
theorem C6_locator_matches_spec (fs : FS) (sourcePath : FsPath) (oldPackage : Str)
    (hnd : ∀ d ∈ fs.dirs, isSourceEntry d = false)
    (hnf : ∀ i ∈ List.range ((splitOnC dotC oldPackage).length + 1),
      getF fs.files (sourcePath ++ splitOnSlash (packageToPath
        (joinC dotC ((splitOnC dotC oldPackage).take i)))) = none) :
    findOldPackageRoot fs sourcePath oldPackage
      = findOldPackageRootSpec fs sourcePath oldPackage := by
  unfold findOldPackageRoot findOldPackageRootSpec
  by_cases h0 : oldPackage = []
  · rw [if_pos h0, if_pos h0]
  · rw [if_neg h0, if_neg h0]
    have hexact : getF fs.files
        (sourcePath ++ splitOnSlash (packageToPath oldPackage)) = none := by
      have h := hnf (splitOnC dotC oldPackage).length (List.mem_range.2 (by omega))
      rw [List.take_length, joinC_splitOnC] at h
      exact h
    have hx := existsSync_eq_dirs hexact
    by_cases hd : (sourcePath ++ splitOnSlash (packageToPath oldPackage)) ∈ fs.dirs
    · rw [if_pos (hx.2 hd), if_pos hd]
    · rw [if_neg (fun hc => hd (hx.1 hc)), if_neg hd]
      exact findRootLoop_eq_spec fs sourcePath _ hnd hnf _ (le_refl _)

/-- Concrete filesystem for the C6 witness, scenario B of the
specification: the declared namespace is com.acme.app but only com/acme
exists on disk, holding a source file directly. -/
def fsScenarioB : FS :=
  { dirs := [[toStr "src"], [toStr "src", toStr "com"], [toStr "src", toStr "com", toStr "acme"]]
    files := [([toStr "src", toStr "com", toStr "acme", toStr "Main.kt"],
               toStr "package com.acme.app\n")]
    readFail := []
    writeFail := [] }

/-- Witness for C6 at scenario B: the locator agrees with the
specification locator and returns com/acme rather than none. -/
theorem C6_locator_matches_spec_witness :
    findOldPackageRoot fsScenarioB [toStr "src"] (toStr "com.acme.app")
      = findOldPackageRootSpec fsScenarioB [toStr "src"] (toStr "com.acme.app") ∧
    findOldPackageRoot fsScenarioB [toStr "src"] (toStr "com.acme.app")
      = some [toStr "src", toStr "com", toStr "acme"] :=
  ⟨C6_locator_matches_spec fsScenarioB [toStr "src"] (toStr "com.acme.app")
      (by decide) (by decide),
   by decide⟩

/-- Concrete filesystem for the C5 counterexample: a Java source file
whose namespace declaration is terminated by a semicolon, the standard
Java form. -/
def fsJavaDecl : FS :=
  { dirs := [[toStr "src"], [toStr "src", toStr "old"]]
    files := [([toStr "src", toStr "old", toStr "A.java"], toStr "package old;\nclass A\n")]
    readFail := []
    writeFail := [] }

/-- C5 counterexample: the claim requires every moved recognised source
file to be written with the declaration package followed by the
effective namespace, but the end-anchored declaration pattern of the
mover never matches a semicolon-terminated Java declaration (the
semicolon is neither an identifier character nor whitespace), so A.java
is moved byte-for-byte: the written file still declares the old
namespace, which differs from the effective namespace. -/
theorem C5_counterexample :
    getF (processEntry fsJavaDecl [toStr "src", toStr "old"] [toStr "src", toStr "new"]
        (toStr "new") [toStr "A.java"]).1.files [toStr "src", toStr "new", toStr "A.java"]
      = some (toStr "package old;\nclass A\n") ∧
    getF (processEntry fsJavaDecl [toStr "src", toStr "old"] [toStr "src", toStr "new"]
        (toStr "new") [toStr "A.java"]).1.files [toStr "src", toStr "old", toStr "A.java"]
      = none ∧
    extractFirstPackage (toStr "package old;\nclass A\n") true = some (toStr "old") ∧
    ¬ toStr "old" = effectiveNamespace (toStr "new") [toStr "A.java"] :=
  ⟨by decide, by decide, by decide, by decide⟩
